import Mathlib

/-!
# Travex path-query engine: `traverse` and its helpers

A shallow embedding of `Travex.traverse` (src/dict/index.js, lines 35-263) and of
the closures it defines (`parseKeyPath`, `deepSearch`, `findFilter`, `search`),
of the checks at the head of the method `search` (lines 458-466) and of the
replacement callback of `decode` (lines 314-382), followed by theorems about
them.

## Modelling conventions

* A JavaScript value is a `JSValue`: `undefined`, `null`, a boolean, a number, a
  string, an array or a plain object.  Numbers are exact integers (no `NaN`, no
  infinities, no fractions, no rounding) and print in plain decimal.  A plain
  object is the list of its own enumerable properties in the order in which
  `Object.values` enumerates them; an array has no holes.
* Property access `v[k]` sees own properties of plain objects, elements and
  `length` of arrays, code units and `length` of strings.  A member inherited
  from a prototype is a function or an accessor result, which is no plain data:
  where the content of a theorem depends on what a lookup returns, the key is
  required not to be one of `inheritedNames`.
* Which elements of a collection are the same array or object is not carried by
  values; the unique stage takes it from `Options.refs` (see there), and the
  theorems about it hold for every such naming of references.
* On such plain data no operation inside `deepSearch` throws, so its `try`/`catch`
  (and with it the option `fatal`) never fires; the option `debug` only logs.
  Both options are therefore absent from `Options`.
* A string is a sequence of characters; for the characters the engine inspects
  (`>`, `=`, `:`, `.`, `#`) this agrees with JavaScript's UTF-16 code units.
  The `length` and the indices of a string that property access sees count code
  units; the limit stage cuts a string by characters, which is the same for a
  string without characters outside the Basic Multilingual Plane.
-/

namespace Travex

/-! ## Values -/

/-- A JavaScript value made of plain data. -/
inductive JSValue where
  | undefined
  | null
  | bool (b : Bool)
  | num (n : Int)
  | str (s : String)
  | arr (xs : List JSValue)
  | obj (kvs : List (String × JSValue))

namespace JSValue

mutual
/-- Structural equality test on values. -/
def beq : JSValue → JSValue → Bool
  | undefined, undefined => true
  | null, null => true
  | bool a, bool b => a == b
  | num a, num b => a == b
  | str a, str b => a == b
  | arr xs, arr ys => beqList xs ys
  | obj xs, obj ys => beqFields xs ys
  | _, _ => false
/-- Structural equality test on lists of values. -/
def beqList : List JSValue → List JSValue → Bool
  | [], [] => true
  | x :: xs, y :: ys => beq x y && beqList xs ys
  | _, _ => false
/-- Structural equality test on property lists. -/
def beqFields : List (String × JSValue) → List (String × JSValue) → Bool
  | [], [] => true
  | (k, x) :: xs, (l, y) :: ys => k == l && beq x y && beqFields xs ys
  | _, _ => false
end

end JSValue

open JSValue

/-! ## Language primitives used by the engine -/

/-- The test `v == null` (true for `null` and `undefined`). -/
def isNullish : JSValue → Bool
  | .undefined => true
  | .null => true
  | _ => false

/-- The conversion `Boolean(v)`. -/
def truthy : JSValue → Bool
  | .undefined => false
  | .null => false
  | .bool b => b
  | .num n => n != 0
  | .str s => s.data != []
  | .arr _ => true
  | .obj _ => true

/-- The test `is.string(v)`, that is `typeof v === 'string'`. -/
def isString : JSValue → Bool
  | .str _ => true
  | _ => false

/-- The test `Array.isArray(v)`. -/
def isArray : JSValue → Bool
  | .arr _ => true
  | _ => false

/-- The method `s.includes(p)` for a one-character string `p`. -/
def includes (s : String) (p : Char) : Bool :=
  s.data.contains p

/-- The pieces of a character list cut at every occurrence of `sep`. -/
def splitChars (sep : Char) : List Char → List (List Char)
  | [] => [[]]
  | c :: cs =>
    if c = sep then [] :: splitChars sep cs
    else
      match splitChars sep cs with
      | [] => [[c]]
      | piece :: pieces => (c :: piece) :: pieces

/-- The method `s.split(sep)` for a one-character string `sep`. -/
def split (s : String) (sep : Char) : List String :=
  (splitChars sep s.data).map String.mk

/-- The method `s.startsWith(p)` for a one-character string `p`. -/
def startsWith (s : String) (p : Char) : Bool :=
  match s.data with
  | [] => false
  | c :: _ => c == p

/-- The method `s.slice(1)`. -/
def slice1 (s : String) : String :=
  String.mk (s.data.drop 1)

/-- The decimal digits of a natural number, most significant first. -/
def natDigits (n : Nat) : List Char :=
  (Nat.toDigits 10 n)

/-- The conversion `String(n)` for an integer. -/
def intToString (n : Int) : String :=
  match n with
  | Int.ofNat m => String.mk (natDigits m)
  | Int.negSucc m => String.mk ('-' :: natDigits (m + 1))

mutual
/-- The conversion `String(v)`: arrays are joined with commas, `null` and
`undefined` elements of an array print as the empty string, a plain object prints
as `[object Object]`. -/
def toStr : JSValue → String
  | .undefined => "undefined"
  | .null => "null"
  | .bool true => "true"
  | .bool false => "false"
  | .num n => intToString n
  | .str s => s
  | .arr xs => String.mk (joinItems xs)
  | .obj _ => "[object Object]"
/-- The body of `Array.prototype.join` with the default separator. -/
def joinItems : List JSValue → List Char
  | [] => []
  | [x] => itemChars x
  | x :: y :: rest => itemChars x ++ ',' :: joinItems (y :: rest)
/-- The text of one array element inside `join`. -/
def itemChars : JSValue → List Char
  | .undefined => []
  | .null => []
  | .bool true => "true".data
  | .bool false => "false".data
  | .num n => (intToString n).data
  | .str s => s.data
  | .arr xs => joinItems xs
  | .obj _ => "[object Object]".data
end

/-- The property key a value denotes when used as `v[key]`. -/
def toPropertyKey (key : JSValue) : String :=
  toStr key

/-! ## Numbers read from strings -/

/-- A numeric value as far as a comparison needs it: `NaN`, an infinity, or the
decimal `m * 10 ^ e`. -/
inductive JSNum where
  | nan
  | inf (negative : Bool)
  | dec (m : Int) (e : Int)

/-- The characters `StringToNumber` strips from both ends (white space and line
terminators). -/
def isWhite (c : Char) : Bool :=
  let n := c.toNat
  n == 9 || n == 10 || n == 11 || n == 12 || n == 13 || n == 32 || n == 160 ||
  n == 0x1680 || (0x2000 ≤ n && n ≤ 0x200A) || n == 0x2028 || n == 0x2029 ||
  n == 0x202F || n == 0x205F || n == 0x3000 || n == 0xFEFF

/-- The string without leading and trailing white space. -/
def trimChars (cs : List Char) : List Char :=
  ((cs.dropWhile isWhite).reverse.dropWhile isWhite).reverse

/-- The value of a digit in the given base, if it is one. -/
def digitVal (base : Nat) (c : Char) : Option Nat :=
  let n := c.toNat
  let v :=
    if 48 ≤ n && n ≤ 57 then some (n - 48)
    else if 97 ≤ n && n ≤ 102 then some (n - 87)
    else if 65 ≤ n && n ≤ 70 then some (n - 55)
    else none
  match v with
  | some d => if d < base then some d else none
  | none => none

/-- The number written by a non-empty run of digits in the given base. -/
def readDigits (base : Nat) (cs : List Char) : Option Nat :=
  match cs with
  | [] => none
  | _ => cs.foldl (fun acc c =>
      match acc, digitVal base c with
      | some a, some d => some (a * base + d)
      | _, _ => none) (some 0)

/-- The number written by a possibly empty run of decimal digits. -/
def readDecimal (cs : List Char) : Nat :=
  cs.foldl (fun acc c => acc * 10 + (c.toNat - 48)) 0

/-- The exponent part of a decimal literal: empty, or `e`/`E`, an optional sign
and at least one digit. -/
def readExponent (cs : List Char) : Option Int :=
  match cs with
  | [] => some 0
  | c :: rest =>
    if c == 'e' || c == 'E' then
      match rest with
      | '+' :: ds => (readDigits 10 ds).map Int.ofNat
      | '-' :: ds => (readDigits 10 ds).map (fun n => - Int.ofNat n)
      | ds => (readDigits 10 ds).map Int.ofNat
    else none

/-- An unsigned decimal literal: `Infinity`, or digits with an optional fraction
and an optional exponent, at least one digit in all. -/
def readUnsigned (negative : Bool) (cs : List Char) : JSNum :=
  if cs == "Infinity".data then .inf negative
  else
    let ip := cs.takeWhile Char.isDigit
    let r1 := cs.dropWhile Char.isDigit
    let fp := match r1 with
      | '.' :: t => t.takeWhile Char.isDigit
      | _ => []
    let r2 := match r1 with
      | '.' :: t => t.dropWhile Char.isDigit
      | _ => r1
    if ip.isEmpty && fp.isEmpty then .nan
    else
      match readExponent r2 with
      | none => .nan
      | some ex =>
        let m := Int.ofNat (readDecimal (ip ++ fp))
        .dec (if negative then - m else m) (ex - Int.ofNat fp.length)

/-- The conversion `Number(s)` of a string (`StringToNumber`). -/
def stringToNumber (s : String) : JSNum :=
  match trimChars s.data with
  | [] => .dec 0 0
  | '0' :: 'x' :: ds => (readDigits 16 ds).elim .nan (fun n => .dec n 0)
  | '0' :: 'X' :: ds => (readDigits 16 ds).elim .nan (fun n => .dec n 0)
  | '0' :: 'o' :: ds => (readDigits 8 ds).elim .nan (fun n => .dec n 0)
  | '0' :: 'O' :: ds => (readDigits 8 ds).elim .nan (fun n => .dec n 0)
  | '0' :: 'b' :: ds => (readDigits 2 ds).elim .nan (fun n => .dec n 0)
  | '0' :: 'B' :: ds => (readDigits 2 ds).elim .nan (fun n => .dec n 0)
  | '+' :: cs => readUnsigned false cs
  | '-' :: cs => readUnsigned true cs
  | cs => readUnsigned false cs

/-- The conversion `Number(v)`. -/
def toNumber : JSValue → JSNum
  | .undefined => .nan
  | .null => .dec 0 0
  | .bool true => .dec 1 0
  | .bool false => .dec 0 0
  | .num n => .dec n 0
  | .str s => stringToNumber s
  | .arr xs => stringToNumber (toStr (.arr xs))
  | .obj kvs => stringToNumber (toStr (.obj kvs))

/-- The mantissa of `m * 10 ^ e` once rescaled to the exponent `e0 ≤ e`. -/
def rescale (m e e0 : Int) : Int :=
  m * 10 ^ (e - e0).toNat

/-- The comparison `a == b` of two numbers. -/
def numEq : JSNum → JSNum → Bool
  | .dec m1 e1, .dec m2 e2 => rescale m1 e1 (min e1 e2) == rescale m2 e2 (min e1 e2)
  | .inf a, .inf b => a == b
  | _, _ => false

/-- The comparison `a > b` of two numbers. -/
def numGt : JSNum → JSNum → Bool
  | .dec m1 e1, .dec m2 e2 => decide (rescale m1 e1 (min e1 e2) > rescale m2 e2 (min e1 e2))
  | .inf false, .inf true => true
  | .inf false, .dec _ _ => true
  | .dec _ _, .inf true => true
  | _, _ => false

/-- The comparison `x == y` when `y` is a string: `null` and `undefined` equal no
string, a string is compared as text, a number or boolean is compared with the
number the string denotes, an array or object is first converted to a string. -/
def looseEq (x : JSValue) (y : String) : Bool :=
  match x with
  | .undefined => false
  | .null => false
  | .bool b => numEq (toNumber (.bool b)) (stringToNumber y)
  | .num n => numEq (.dec n 0) (stringToNumber y)
  | .str s => s == y
  | .arr xs => toStr (.arr xs) == y
  | .obj kvs => toStr (.obj kvs) == y

/-! ## Property access and array helpers -/

/-- The array index a property key denotes, if it is a canonical numeric string. -/
def arrayIndex (k : String) : Option Nat :=
  match k.data with
  | [] => none
  | ['0'] => some 0
  | c :: cs =>
    if c != '0' && (c :: cs).all Char.isDigit then some (readDecimal (c :: cs)) else none

/-- The names of the members that a plain object inherits: the properties of
`Object.prototype` (ECMAScript with its Annex B) and the methods `traverse` and
`findall` that `src/init.js` installs on it.  For such a key `target[key]` is
the inherited member whenever the object has no own property of that name. -/
def inheritedNames : List String :=
  ["constructor", "__defineGetter__", "__defineSetter__", "hasOwnProperty",
    "__lookupGetter__", "__lookupSetter__", "isPrototypeOf", "propertyIsEnumerable",
    "toString", "valueOf", "__proto__", "toLocaleString", "traverse", "findall"]

/-- The number of UTF-16 code units of a character. -/
def unitsOf (c : Char) : Nat :=
  if c.toNat < 0x10000 then 1 else 2

/-- The property `length` of a string: its number of UTF-16 code units. -/
def utf16Length : List Char → Nat
  | [] => 0
  | c :: cs => unitsOf c + utf16Length cs

/-- The character to which the code unit at index `i` of a string belongs. -/
def charAtUnit : List Char → Nat → Option Char
  | [], _ => none
  | c :: cs, i => if i < unitsOf c then some c else charAtUnit cs (i - unitsOf c)

/-- The property access `v?.[k]` on plain data: an own property of a plain
object, an element or the `length` of an array, a code unit or the `length` of a
string, and `undefined` otherwise.  Two lookups of the code are outside this
definition: a key that names an inherited member (for a plain object, one of
`inheritedNames`) gives that member, and an index that falls on one half of a
surrogate pair gives a lone surrogate, for which the whole character stands
here. -/
def getProp (v : JSValue) (k : String) : JSValue :=
  match v with
  | .obj kvs =>
    match kvs.find? (fun p => p.1 == k) with
    | some p => p.2
    | none => .undefined
  | .arr xs =>
    if k == "length" then .num xs.length
    else
      match arrayIndex k with
      | some i => xs.getD i .undefined
      | none => .undefined
  | .str s =>
    if k == "length" then .num (utf16Length s.data)
    else
      match arrayIndex k with
      | some i =>
        match charAtUnit s.data i with
        | some c => .str (String.mk [c])
        | none => .undefined
      | none => .undefined
  | _ => .undefined

/-- The elements a value contributes to `array.flat()`. -/
def flatItem : JSValue → List JSValue
  | .arr ys => ys
  | v => [v]

/-- The method `array.flat()` (one level). -/
def flat1 (xs : List JSValue) : List JSValue :=
  xs.flatMap flatItem

mutual
/-- The method `array.flat(Infinity)`. -/
def flatDeep : List JSValue → List JSValue
  | [] => []
  | x :: xs => flatDeepItem x ++ flatDeep xs
/-- The elements a value contributes to `array.flat(Infinity)`. -/
def flatDeepItem : JSValue → List JSValue
  | .arr ys => flatDeep ys
  | v => [v]
end

/-! ## `parseKeyPath` (lines 49-71) -/

/-- The reserved separators `this.isPrefix`. -/
def isPrefix : List Char := ['>', '=', ':']

/-- The closure `parseKeyPath`.  `splitter` is the first reserved separator that
the path contains when the path is a string; it is `none` (the source's
`undefined`) for every other path, arrays included. -/
def parseKeyPath (path : JSValue) : List JSValue :=
  let splitter := isPrefix.find? (fun p =>
    match path with
    | .str s => includes s p
    | _ => false)
  match path with
  | .arr ks =>
    ks.flatMap (fun k =>
      match k, splitter with
      | .str s, some sp => if includes s sp then (split s sp).map .str else [k]
      | _, _ => [k])
  | .str s =>
    match splitter with
    | some sp => (split s sp).map .str
    | none => [path]
  | _ => []

/-! ## `deepSearch` (lines 73-131) -/

/-- The collapsing return of the wildcard branch (lines 114-118). -/
def collapse : List JSValue → JSValue
  | [] => .undefined
  | [x] => x
  | xs => .arr xs

/-- The elements `results.push(...(Array.isArray(res) ? res : [res]))` appends
when `res != null`, and none otherwise (lines 89-91, 106-108). -/
def spread : JSValue → List JSValue
  | .undefined => []
  | .null => []
  | .arr ys => ys
  | v => [v]

/-- The element `results.push(res)` appends when `res != null` (lines 99-101). -/
def pushOne (res : JSValue) : List JSValue :=
  if isNullish res then [] else [res]

/-- The test `current === '...'`. -/
def isWildcard : JSValue → Bool
  | .str s => s == "..."
  | _ => false

/-- The value `deepSearch(obj, ['...', ...rest])` returns, given the `results`
that `recur(obj)` collects: `undefined` for a nullish `obj` (line 77), the
collapsed `results` otherwise. -/
def wildResult (obj : JSValue) (results : List JSValue) : JSValue :=
  if isNullish obj then .undefined else collapse results

mutual
/-- The `results` after `recur(target)` (lines 85-111), for the step sequence
`['...', ...rest]`: `key` is the property key of `rest[0]` and `direct d` is
`deepSearch(d, rest.slice(1))`.  The recursive calls
`deepSearch(item, ['...', ...rest])` are `wildResult item (recur key direct item)`,
because `parseKeyPath` returns an array path unchanged. -/
def recur (key : String) (direct : JSValue → JSValue) : JSValue → List JSValue
  | .arr items => recurItems key direct items
  | .obj kvs =>
    (match getProp (.obj kvs) key with
      | .undefined => []
      | d => pushOne (direct d))
    ++ recurValues key direct kvs
  | _ => []
/-- The loop `for (const item of target)` of `recur` (lines 87-92). -/
def recurItems (key : String) (direct : JSValue → JSValue) :
    List JSValue → List JSValue
  | [] => []
  | item :: items =>
    spread (wildResult item (recur key direct item)) ++ recurItems key direct items
/-- The loop `for (const val of Object.values(target))` of `recur`
(lines 104-109). -/
def recurValues (key : String) (direct : JSValue → JSValue) :
    List (String × JSValue) → List JSValue
  | [] => []
  | (_, val) :: kvs =>
    spread (wildResult val (recur key direct val)) ++ recurValues key direct kvs
end

/-- The value `next` of a literal step (line 121). -/
def literalStep (obj : JSValue) (key : String) : JSValue :=
  match obj with
  | .arr items => .arr (flat1 ((items.map (fun item => getProp item key)).filter truthy))
  | _ => getProp obj key

/-- The closure `deepSearch` once `parseKeyPath(path)` has produced `keys`
(lines 77-123).  The two non-empty cases are the destructuring
`const [current, ...rest] = keys` with `rest` empty (`rest[0]` is `undefined`,
`rest.slice(1)` is empty) and with `rest = [next, ...]`. -/
def deepSearchKeys (keys : List JSValue) (obj : JSValue) : JSValue :=
  match keys with
  | [] => obj
  | [current] =>
    if isNullish obj then .undefined
    else if isWildcard current then
      collapse (recur (toPropertyKey .undefined) (fun d => deepSearchKeys [] d) obj)
    else deepSearchKeys [] (literalStep obj (toPropertyKey current))
  | current :: next :: rest =>
    if isNullish obj then .undefined
    else if isWildcard current then
      collapse (recur (toPropertyKey next) (fun d => deepSearchKeys rest d) obj)
    else deepSearchKeys (next :: rest) (literalStep obj (toPropertyKey current))

/-- The closure `deepSearch(obj, path)`. -/
def deepSearch (obj path : JSValue) : JSValue :=
  deepSearchKeys (parseKeyPath path) obj

/-! ## `findFilter` (lines 133-177) -/

/-- The test `this.isPrefix.some(p => x.includes(p))`. -/
def hasOperator (x : String) : Bool :=
  isPrefix.any (fun p => includes x p)

/-- The boolean pushed to `match` for one condition (lines 146-155): the
condition is cut at its first reserved operator (in the order of `isPrefix`),
the left part is resolved against the entry and the result, unless nullish, is
compared loosely with the second piece. -/
def condMatches (entry : JSValue) (cond : String) : Bool :=
  match isPrefix.find? (fun p => includes cond p) with
  | none => false
  | some op =>
    match split cond op with
    | k :: val :: _ =>
      let actual := deepSearch entry (.arr (parseKeyPath (.str k)))
      !isNullish actual && looseEq actual val
    | _ => false

/-- The entries pushed to `filtered` (lines 141-161). -/
def survivors (entries : List JSValue) (filters : List String) : List JSValue :=
  entries.filter (fun entry => filters.all (condMatches entry))

/-- The values pushed to `values` (lines 164-171). -/
def project (filtered : List JSValue) (key : String) : List JSValue :=
  filtered.flatMap (fun entry => pushOne (deepSearch entry (.arr (parseKeyPath (.str key)))))

/-- The return `xs.length === 1 ? xs[0] : xs` (lines 173 and 176). -/
def oneOrAll : List JSValue → JSValue
  | [x] => x
  | xs => .arr xs

/-- The collection to which the final return of `findFilter` applies: `values`
(line 173) when a truthy projection key is present, `filtered` (line 176)
otherwise. -/
def remaining (entries : List JSValue) (conditions : List String) : List JSValue :=
  match conditions.find? (fun x => !hasOperator x) with
  | some key =>
    if key.data != [] then project (survivors entries (conditions.filter hasOperator)) key
    else survivors entries (conditions.filter hasOperator)
  | none => survivors entries (conditions.filter hasOperator)

/-- The closure `findFilter(items, conditions)`, for a list of strings as
`conditions`. -/
def findFilter (items : JSValue) (conditions : List String) : JSValue :=
  match items with
  | .arr entries =>
    if conditions.isEmpty then items
    else
      let key := conditions.find? (fun x => !hasOperator x)
      let filters := conditions.filter hasOperator
      let filtered := survivors entries filters
      match key with
      | some key =>
        if key.data != [] then oneOrAll (project filtered key)
        else oneOrAll filtered
      | none => oneOrAll filtered
  | _ => items

/-! ## `traverse` (lines 35-263) -/

/-- The exceptions `traverse` can raise on plain data. -/
inductive JSError where
  | thinkError (code : String)
  | typeError
  deriving DecidableEq

/-- The options of `traverse` after destructuring (lines 36-47).  `flatten` and
`unique` hold the truthiness of the supplied values; `find` is a list of strings
when supplied; `filter` is `some f` exactly when a function is supplied.

The field `refs` is no option of the code.  It holds what a run determines and
values do not carry: `refs i` names the reference at position `i` of the
collection that enters the unique stage, when that element is an array or
object; two positions hold the same array or object exactly when their names
are equal.  By default every position holds a reference of its own. -/
structure Options where
  flatten : Bool := false
  unique : Bool := false
  fallback : JSValue := .null
  limit : JSValue := .null
  find : Option (List String) := none
  group : JSValue := .null
  filter : Option (JSValue → JSValue) := none
  default : JSValue := .null
  refs : Nat → Nat := fun i => i

/-- The values one call `search(key)` pushes to `tasks` (lines 191-204). -/
def search (input key : JSValue) : List JSValue :=
  let found := deepSearch input key
  let found :=
    match found, key with
    | .null, _ => found
    | _, .str s =>
      if startsWith s '.' || startsWith s '#' then
        deepSearch input (.arr [.str "...", .str (slice1 s)])
      else found
    | _, _ => found
  spread found

/-- The `tasks` after the loop over the fallback keys (lines 212-215), entered
with no task. -/
def searchFallback (input : JSValue) : List JSValue → List JSValue
  | [] => []
  | key :: keys =>
    match search input key with
    | [] => searchFallback input keys
    | tasks => tasks

/-- The list `fallbackKeys` (line 211). -/
def fallbackKeys (fallback : JSValue) : List JSValue :=
  match fallback with
  | .arr ks => ks
  | f => [f]

/-- The `tasks` after the primary loop and the fallback (lines 206-216). -/
def collectTasks (keys : List JSValue) (input fallback : JSValue) : List JSValue :=
  match keys.flatMap (search input) with
  | [] =>
    if truthy fallback then searchFallback input (fallbackKeys fallback)
    else []
  | tasks => tasks

/-- The value `final` of lines 218-222. -/
def finalOf (tasks : List JSValue) (dflt : JSValue) : JSValue :=
  match tasks with
  | [] => dflt
  | [t] => t
  | ts => .arr ts

/-- The group stage (lines 224-228). -/
def groupStage (group final : JSValue) : JSValue :=
  match group, final with
  | .num g, .arr xs =>
    if g > 0 then
      match xs.get? (g - 1).toNat with
      | some v => if isNullish v then final else v
      | none => final
    else final
  | _, _ => final

/-- The value `limitNum` (line 230): `limit >>> 0` for a number, `null` (here
`none`) otherwise. -/
def limitNum (limit : JSValue) : Option Nat :=
  match limit with
  | .num n => some (n % 4294967296).toNat
  | _ => none

/-- The flatten stage (lines 232-236). -/
def flattenStage (flatten : Bool) (final : JSValue) : JSValue :=
  match flatten, final with
  | true, .arr xs => .arr (flatDeep xs)
  | _, _ => final

/-- A value that is neither an array nor an object. -/
def isPrimitive : JSValue → Bool
  | .arr _ => false
  | .obj _ => false
  | _ => true

/-- The comparison a `Set` uses for membership (SameValueZero), on two values
given with the names of their references.  Primitives are the same when they are
equal; arrays and objects are the same when they are the same reference. -/
def sameValueZero (a b : JSValue × Nat) : Bool :=
  if isPrimitive a.1 then JSValue.beq a.1 b.1
  else !isPrimitive b.1 && a.2 == b.2

/-- The elements of a `Set`, in insertion order, after adding the given values to
a set that holds `seen`. -/
def setAddAll (seen : List (JSValue × Nat)) : List (JSValue × Nat) → List (JSValue × Nat)
  | [] => seen
  | x :: xs =>
    if seen.any (sameValueZero x) then setAddAll seen xs
    else setAddAll (seen ++ [x]) xs

/-- The elements of a collection with the names of their references, the first
element standing at position `i`. -/
def withRefs (refs : Nat → Nat) (i : Nat) : List JSValue → List (JSValue × Nat)
  | [] => []
  | x :: xs => (x, refs i) :: withRefs refs (i + 1) xs

/-- The unique stage (lines 238-242): `[...new Set(final)]`, for the references
that `refs` names. -/
def uniqueStageRefs (refs : Nat → Nat) (unique : Bool) (final : JSValue) : JSValue :=
  match unique, final with
  | true, .arr xs => .arr ((setAddAll [] (withRefs refs 0 xs)).map Prod.fst)
  | _, _ => final

/-- The unique stage on a collection in which every position holds a reference
of its own (no array or object occurs twice). -/
def uniqueStage (unique : Bool) (final : JSValue) : JSValue :=
  uniqueStageRefs (fun i => i) unique final

/-- The limit stage (lines 244-248).  Reading `final.length` throws a
`TypeError` on `null` and `undefined`; arrays and strings have a `length` and a
`slice`; numbers and booleans have no `length`; a plain object whose own
`length` exceeds the limit has no `slice` to call.  A string is measured and cut
by characters, as the code does for every string without characters outside the
Basic Multilingual Plane. -/
def limitStage (limitNum : Option Nat) (final : JSValue) : Except JSError JSValue :=
  match limitNum with
  | none => .ok final
  | some 0 => .ok final
  | some (n + 1) =>
    match final with
    | .undefined => .error .typeError
    | .null => .error .typeError
    | .arr xs => if xs.length > n + 1 then .ok (.arr (xs.take (n + 1))) else .ok final
    | .str s =>
      if s.data.length > n + 1 then .ok (.str (String.mk (s.data.take (n + 1))))
      else .ok final
    | .obj kvs =>
      if numGt (toNumber (getProp (.obj kvs) "length")) (.dec (n + 1) 0) then
        .error .typeError
      else .ok final
    | _ => .ok final

/-- The find stage (lines 250-254). -/
def findStage (find : Option (List String)) (final : JSValue) : JSValue :=
  match find with
  | some conditions =>
    findFilter (match final with
      | .arr xs => .arr xs
      | v => .arr [v]) conditions
  | none => final

/-- The filter stage (lines 256-260). -/
def filterStage (filter : Option (JSValue → JSValue)) (final : JSValue) : JSValue :=
  match filter with
  | some f => f final
  | none => final

/-- The stages applied to `final` in source order (lines 224-262). -/
def pipeline (options : Options) (final : JSValue) : Except JSError JSValue :=
  match limitStage (limitNum options.limit)
      (uniqueStageRefs options.refs options.unique
        (flattenStage options.flatten (groupStage options.group final))) with
  | .ok limited => .ok (filterStage options.filter (findStage options.find limited))
  | .error e => .error e

/-- The list `keys` of lines 179-187. -/
def patternKeys (pattern : JSValue) : Except JSError (List JSValue) :=
  match pattern with
  | .arr ks => .ok ks
  | .undefined => .error (.thinkError "INVALID_INPUT")
  | .null => .error (.thinkError "INVALID_INPUT")
  | p => .ok [p]

/-- The method `traverse(pattern, input, options)`. -/
def traverse (pattern input : JSValue) (options : Options) : Except JSError JSValue :=
  match patternKeys pattern with
  | .error e => .error e
  | .ok keys =>
    pipeline options (finalOf (collectTasks keys input options.fallback) options.default)

/-! ## `search` (lines 450-482): the checks before the matching loop -/

/-- The exceptions the checks at the head of `search` can raise. -/
inductive SearchError where
  | thinkError (code : String)
  | referenceError (name : String)
  deriving DecidableEq

/-- The list `patternList` (line 462). -/
def patternList (patterns : JSValue) : List JSValue :=
  match patterns with
  | .arr ps => ps
  | p => [p]

/-- The part of `search(patterns, input, options)` that precedes the matching
loop (lines 458-466): it returns the `patternList` with which the loop is
entered.  Only the number of patterns matters here, so a pattern is any value.
The message of the `ThinkError` of line 465 interpolates the identifier
`maxPattern`, which no declaration or import of the module binds: evaluating the
template literal raises a `ReferenceError` before the `ThinkError` is built. -/
def searchPatternList (patterns input : JSValue) : Except SearchError (List JSValue) :=
  if isNullish input then .error (.thinkError "INVALID_INPUT")
  else if (patternList patterns).length > 0x10000 >>> 5 then
    .error (.referenceError "maxPattern")
  else .ok (patternList patterns)

/-! ## `decode` (lines 265-397): the replacement callback -/

/-- The exceptions the replacement callback of `decode` throws, by code. -/
inductive DecodeError where
  | thinkError (code : String)
  deriving DecidableEq

/-- The tables the module imports and `src/` does not hold.  Text is a list of
UTF-16 code units; `decodeMapNumeric n` is `some v` exactly when
`decodeMapNumeric.hasOwnProperty(n)`. -/
structure DecodeTables where
  decodeMap : String → Option (List Nat)
  decodeMapLegacy : String → Option (List Nat)
  decodeMapNumeric : Nat → Option (List Nat)
  invalidReferenceCodePoints : List Nat

/-- The UTF-16 code units of a string of the Basic Multilingual Plane. -/
def codeUnits (s : String) : List Nat :=
  s.data.map Char.toNat

/-- The call `parseInt(digits, base)` for a capture group that holds digits of
the base only (the groups `decDigits` and `hexDigits`). -/
def parseInt (digits : String) (base : Nat) : Nat :=
  (readDigits base digits.data).getD 0

/-- The call `String.fromCharCode(...units)`: every argument is reduced to 16
bits. -/
def fromCharCode (units : List Nat) : List Nat :=
  units.map (fun u => u % 65536)

/-- The callback from the point where `codePoint` is known (lines 359-381). -/
def decodeCodePoint (t : DecodeTables) (fatal : Bool) (codePoint : Nat) :
    Except DecodeError (List Nat) :=
  if (codePoint ≥ 0xD800 && codePoint ≤ 0xDFFF) || codePoint > 0x10FFFF then
    if fatal then .error (.thinkError "INVALID_CODE_POINT") else .ok [0xFFFD]
  else
    match t.decodeMapNumeric codePoint with
    | some v => if fatal then .error (.thinkError "DISALLOWED_REFERENCE") else .ok v
    | none =>
      if fatal && t.invalidReferenceCodePoints.contains codePoint then
        .error (.thinkError "DISALLOWED_REFERENCE")
      else if codePoint > 0xFFFF then
        .ok (fromCharCode [(((codePoint - 0x10000) >>> 10) &&& 0x3FF) ||| 0xD800,
          ((codePoint - 0x10000) &&& 0x3FF) ||| 0xDC00])
      else .ok (fromCharCode [codePoint])

/-- The replacement callback of `decode` (lines 314-382).  A capture group that
did not take part in the match, or matched nothing, is the empty string. -/
def decodeReplace (t : DecodeTables) (fatal isAttributeValue : Bool) (matched : List Nat)
    (named legacy legacyExtra decDigits decSemicolon hexDigits hexSemicolon : String) :
    Except DecodeError (List Nat) :=
  if named.data != [] then
    match t.decodeMap named with
    | some v => if v.isEmpty then .ok matched else .ok v
    | none => .ok matched
  else if legacy.data != [] then
    if legacyExtra.data != [] && isAttributeValue then
      if fatal && legacyExtra == "=" then .error (.thinkError "INVALID_REFERENCE")
      else .ok matched
    else if fatal then .error (.thinkError "MISSING_SEMICOLON")
    else .ok ((t.decodeMapLegacy legacy).getD [] ++ codeUnits legacyExtra)
  else if decDigits.data != [] then
    if fatal && decSemicolon.data == [] then .error (.thinkError "MISSING_SEMICOLON")
    else decodeCodePoint t fatal (parseInt decDigits 10)
  else if hexDigits.data != [] then
    if fatal && hexSemicolon.data == [] then .error (.thinkError "MISSING_SEMICOLON")
    else decodeCodePoint t fatal (parseInt hexDigits 16)
  else if fatal then .error (.thinkError "MISSING_SEMICOLON")
  else .ok matched

/-! ## Specification-side definitions -/

mutual
/-- Specification (wildcard completeness): the values stored under key `k` at
the mapping nodes of a tree, at any depth, one entry per occurrence, listed
depth-first with a node's own value before those of its descendants. -/
def specValuesUnder (k : String) : JSValue → List JSValue
  | .arr items => specValuesItems k items
  | .obj kvs =>
    (match kvs.find? (fun p => p.1 == k) with
      | some p => [p.2]
      | none => [])
    ++ specValuesFields k kvs
  | _ => []
/-- Specification: the values stored under key `k` inside the elements of a
sequence. -/
def specValuesItems (k : String) : List JSValue → List JSValue
  | [] => []
  | item :: items => specValuesUnder k item ++ specValuesItems k items
/-- Specification: the values stored under key `k` inside the values of a
mapping. -/
def specValuesFields (k : String) : List (String × JSValue) → List JSValue
  | [] => []
  | (_, val) :: kvs => specValuesUnder k val ++ specValuesFields k kvs
end

/-- Specification (compound path strings): the characters of the keys
`k1, ..., kn` written one after the other with the separator `sep` between
them. -/
def joinChars (sep : Char) : List String → List Char
  | [] => []
  | [k] => k.data
  | k :: k2 :: rest => k.data ++ sep :: joinChars sep (k2 :: rest)

/-- Specification (compound path strings): the compound string
`k1 sep k2 sep ... sep kn`. -/
def joinKeys (sep : Char) (ks : List String) : String :=
  String.mk (joinChars sep ks)

/-- Specification (unique): the elements of a collection that no earlier element
is the same as, in their order; `before` holds the elements that stand before
the collection. -/
def specFirstOccurrences (before : List (JSValue × Nat)) :
    List (JSValue × Nat) → List (JSValue × Nat)
  | [] => []
  | x :: xs =>
    (if before.any (fun b => sameValueZero b x) then [] else [x])
      ++ specFirstOccurrences (before ++ [x]) xs

/-- Specification (literal step on a sequence): a lookup that is absent or
false-like: `undefined`, `null`, `false`, `0` or the empty string. -/
def specFalseLike : JSValue → Bool
  | .undefined => true
  | .null => true
  | .bool false => true
  | .num 0 => true
  | .str s => s == ""
  | _ => false

/-- Specification (literal step on a sequence): the collection obtained by
looking `k` up in every element of `s` in order, dropping every lookup that is
absent or false-like, and flattening the remaining values by one level. -/
def specSequenceStep (s : List JSValue) (k : String) : List JSValue :=
  (s.filterMap (fun item =>
    if specFalseLike (getProp item k) then none else some (getProp item k))).flatMap
    (fun v =>
      match v with
      | .arr ys => ys
      | w => [w])

/-- Specification (separator priority): the separator a path string is split on,
chosen by the fixed priority `>`, then `=`, then `:`. -/
def specChosenSeparator (s : String) : Option Char :=
  if includes s '>' then some '>'
  else if includes s '=' then some '='
  else if includes s ':' then some ':'
  else none

/-- The tree `{a:{b:[{c:1},{c:2},{c:3}]}}` of scenarios 1 and 2. -/
def scenarioTree : JSValue :=
  .obj [("a", .obj [("b", .arr [.obj [("c", .num 1)], .obj [("c", .num 2)],
    .obj [("c", .num 3)]])])]

/-- The input `{items:[{id:1,ok:true},{id:2,ok:false}]}` of scenario 3. -/
def scenarioItems : JSValue :=
  .obj [("items", .arr [.obj [("id", .num 1), ("ok", .bool true)],
    .obj [("id", .num 2), ("ok", .bool false)]])]

/-! ## Equality of values is decidable -/

namespace JSValue

mutual
theorem beq_iff : ∀ (a b : JSValue), beq a b = true ↔ a = b
  | undefined, b => by cases b <;> simp [beq]
  | null, b => by cases b <;> simp [beq]
  | bool a, b => by cases b <;> simp [beq]
  | num a, b => by cases b <;> simp [beq]
  | str a, b => by cases b <;> simp [beq]
  | arr xs, b => by cases b <;> simp [beq, beqList_iff xs]
  | obj xs, b => by cases b <;> simp [beq, beqFields_iff xs]
theorem beqList_iff : ∀ (xs ys : List JSValue), beqList xs ys = true ↔ xs = ys
  | [], ys => by cases ys <;> simp [beqList]
  | x :: xs, ys => by cases ys <;> simp [beqList, beq_iff x, beqList_iff xs]
theorem beqFields_iff :
    ∀ (xs ys : List (String × JSValue)), beqFields xs ys = true ↔ xs = ys
  | [], ys => by cases ys <;> simp [beqFields]
  | (k, x) :: xs, ys => by
    cases ys with
    | nil => simp [beqFields]
    | cons p ys =>
      obtain ⟨l, y⟩ := p
      simp [beqFields, beq_iff x, beqFields_iff xs, and_assoc]
end

instance : DecidableEq JSValue := fun a b =>
  decidable_of_iff (beq a b = true) (beq_iff a b)

end JSValue

instance decEqOutcome : DecidableEq (Except JSError JSValue) := fun a b =>
  match a, b with
  | .ok x, .ok y =>
    if h : x = y then isTrue (by rw [h])
    else isFalse (by intro h2; cases h2; exact h rfl)
  | .error x, .error y =>
    if h : x = y then isTrue (by rw [h])
    else isFalse (by intro h2; cases h2; exact h rfl)
  | .ok _, .error _ => isFalse (by intro h; cases h)
  | .error _, .ok _ => isFalse (by intro h; cases h)

/-! ## The path parser -/

/-- An array path is returned unchanged: `splitter` is computed from the path
itself, which is not a string, so no element is ever split. -/
theorem parseKeyPath_arr (ks : List JSValue) : parseKeyPath (.arr ks) = ks := by
  have h : isPrefix.find? (fun _ => false) = none := by decide
  simp only [parseKeyPath, h]
  induction ks with
  | nil => rfl
  | cons k ks ih =>
    rw [List.flatMap_cons, ih]
    cases k <;> rfl


/-! ## Wildcard descent -/

theorem spread_collapse (results : List JSValue)
    (h : ∀ x ∈ results, isArray x = false ∧ isNullish x = false) :
    spread (collapse results) = results := by
  match results, h with
  | [], _ => rfl
  | [x], h =>
    have hx := h x (by simp)
    cases x <;> simp_all [collapse, spread, isArray, isNullish]
  | _ :: _ :: _, _ => rfl

theorem spread_wildResult (v : JSValue) (results : List JSValue)
    (h : ∀ x ∈ results, isArray x = false ∧ isNullish x = false)
    (hv : isNullish v = true → results = []) :
    spread (wildResult v results) = results := by
  unfold wildResult
  by_cases hn : isNullish v = true
  · simp [hn, hv hn, spread]
  · simp [hn, spread_collapse results h]

theorem recur_nullish (key : String) (direct : JSValue → JSValue) (v : JSValue)
    (hv : isNullish v = true) : recur key direct v = [] := by
  cases v <;> simp_all [isNullish, recur]

theorem mem_filter_present (xs : List JSValue) (h : ∀ x ∈ xs, isArray x = false) :
    ∀ x ∈ xs.filter (fun x => !isNullish x), isArray x = false ∧ isNullish x = false := by
  intro x hx
  rw [List.mem_filter] at hx
  exact ⟨h x hx.1, by simpa using hx.2⟩

theorem direct_part (k : String) (kvs : List (String × JSValue)) :
    (match getProp (.obj kvs) k with
      | .undefined => []
      | d => pushOne d)
    = (match kvs.find? (fun (p : String × JSValue) => p.1 == k) with
      | some p => [p.2]
      | none => []).filter (fun x => !isNullish x) := by
  simp only [getProp]
  generalize kvs.find? (fun (p : String × JSValue) => p.1 == k) = r
  match r with
  | none => rfl
  | some (_, .undefined) => rfl
  | some (_, .null) => rfl
  | some (_, .bool _) => rfl
  | some (_, .num _) => rfl
  | some (_, .str _) => rfl
  | some (_, .arr _) => rfl
  | some (_, .obj _) => rfl

mutual
theorem recur_eq_spec (k : String) : ∀ (v : JSValue),
    (∀ x ∈ specValuesUnder k v, isArray x = false) →
    recur k (fun d => d) v = (specValuesUnder k v).filter (fun x => !isNullish x)
  | .undefined, _ => rfl
  | .null, _ => rfl
  | .bool _, _ => rfl
  | .num _, _ => rfl
  | .str _, _ => rfl
  | .arr items, h => by
    rw [recur, specValuesUnder]
    rw [specValuesUnder] at h
    exact recurItems_eq_spec k items h
  | .obj kvs, h => by
    rw [recur, specValuesUnder, List.filter_append, direct_part]
    rw [specValuesUnder] at h
    rw [recurValues_eq_spec k kvs (fun x hx => h x (List.mem_append_right _ hx))]
theorem recurItems_eq_spec (k : String) : ∀ (items : List JSValue),
    (∀ x ∈ specValuesItems k items, isArray x = false) →
    recurItems k (fun d => d) items
      = (specValuesItems k items).filter (fun x => !isNullish x)
  | [], _ => rfl
  | item :: items, h => by
    rw [specValuesItems] at h
    have h1 : ∀ x ∈ specValuesUnder k item, isArray x = false :=
      fun x hx => h x (List.mem_append_left _ hx)
    rw [recurItems, specValuesItems, List.filter_append,
      recurItems_eq_spec k items (fun x hx => h x (List.mem_append_right _ hx)),
      spread_wildResult item _ (by
        rw [recur_eq_spec k item h1]; exact mem_filter_present _ h1)
        (recur_nullish k _ item),
      recur_eq_spec k item h1]
theorem recurValues_eq_spec (k : String) : ∀ (kvs : List (String × JSValue)),
    (∀ x ∈ specValuesFields k kvs, isArray x = false) →
    recurValues k (fun d => d) kvs
      = (specValuesFields k kvs).filter (fun x => !isNullish x)
  | [], _ => rfl
  | (_, val) :: kvs, h => by
    rw [specValuesFields] at h
    have h1 : ∀ x ∈ specValuesUnder k val, isArray x = false :=
      fun x hx => h x (List.mem_append_left _ hx)
    rw [recurValues, specValuesFields, List.filter_append,
      recurValues_eq_spec k kvs (fun x hx => h x (List.mem_append_right _ hx)),
      spread_wildResult val _ (by
        rw [recur_eq_spec k val h1]; exact mem_filter_present _ h1)
        (recur_nullish k _ val),
      recur_eq_spec k val h1]
end

theorem deepSearch_wildcard (T : JSValue) (k : String) :
    deepSearch T (.arr [.str "...", .str k])
      = wildResult T (recur k (fun d => d) T) := by
  unfold deepSearch
  rw [parseKeyPath_arr]
  simp only [deepSearchKeys, wildResult]
  have hw : isWildcard (.str "...") = true := by decide
  simp only [hw, toPropertyKey, toStr]
  rfl

theorem deepSearch_wildcard_spec (T : JSValue) (k : String)
    (h : ∀ x ∈ specValuesUnder k T, isArray x = false) :
    deepSearch T (.arr [.str "...", .str k])
      = collapse ((specValuesUnder k T).filter (fun x => !isNullish x)) := by
  rw [deepSearch_wildcard, ← recur_eq_spec k T h]
  unfold wildResult
  by_cases hn : isNullish T = true
  · simp [hn, recur_nullish k _ T hn, collapse]
  · simp [hn]

/-- C1 (amended).  Wildcard completeness: for every tree `T` of plain data and
every key `k` that is not the name of a member every object inherits
(`inheritedNames`; for such a key `target[k]` is the inherited member at every
mapping node without an own `k`, and the code collects it), such that no value
stored under `k` in `T` is a sequence, the `results` that the wildcard branch
collects for the step sequence `['...', k]` are exactly the values stored under
`k` at the mapping nodes of `T`, at any depth, one per occurrence and in
depth-first order, except the values `null` and `undefined`; `deepSearch`
returns these `results` collapsed. -/
theorem wildcard_completeness (T : JSValue) (k : String)
    (_hk : k ∉ inheritedNames)
    (h : ∀ x ∈ specValuesUnder k T, isArray x = false) :
    recur k (fun d => d) T = (specValuesUnder k T).filter (fun x => !isNullish x) ∧
    deepSearch T (.arr [.str "...", .str k])
      = collapse ((specValuesUnder k T).filter (fun x => !isNullish x)) :=
  ⟨recur_eq_spec k T h, deepSearch_wildcard_spec T k h⟩

/-- C1, witness: the tree `{a:{b:[{c:1},{c:2},{c:3}]}}` and the key `c`. -/
theorem wildcard_completeness_witness :
    "c" ∉ inheritedNames ∧
    (∀ x ∈ specValuesUnder "c" scenarioTree, isArray x = false) ∧
    recur "c" (fun d => d) scenarioTree
      = (specValuesUnder "c" scenarioTree).filter (fun x => !isNullish x) ∧
    deepSearch scenarioTree (.arr [.str "...", .str "c"])
      = collapse ((specValuesUnder "c" scenarioTree).filter (fun x => !isNullish x)) :=
  ⟨by decide, by decide, wildcard_completeness scenarioTree "c" (by decide) (by decide)⟩

/-- C1, counterexample: in `{a:{c:[1,2]}, b:{c:3}}` the values stored under `c`
are the sequence `[1,2]` and `3`, but the wildcard branch collects `1, 2, 3`: a
lone sequence-valued match is spread into its elements on the way up.  In
`{c:null, d:{c:1}}` the values stored under `c` are `null` and `1`, but only `1`
is collected. -/
theorem wildcard_spreads_sequence_value :
    specValuesUnder "c" (.obj [("a", .obj [("c", .arr [.num 1, .num 2])]),
        ("b", .obj [("c", .num 3)])])
      = [.arr [.num 1, .num 2], .num 3] ∧
    recur "c" (fun d => d) (.obj [("a", .obj [("c", .arr [.num 1, .num 2])]),
        ("b", .obj [("c", .num 3)])])
      = [.num 1, .num 2, .num 3] ∧
    deepSearch (.obj [("a", .obj [("c", .arr [.num 1, .num 2])]),
        ("b", .obj [("c", .num 3)])]) (.arr [.str "...", .str "c"])
      = .arr [.num 1, .num 2, .num 3] ∧
    specValuesUnder "c" (.obj [("c", .null), ("d", .obj [("c", .num 1)])])
      = [.null, .num 1] ∧
    recur "c" (fun d => d) (.obj [("c", .null), ("d", .obj [("c", .num 1)])])
      = [.num 1] := by
  decide

/-! ## The orchestrator without post-processing -/

theorem pipeline_plain (fallback dflt final : JSValue) :
    pipeline { fallback := fallback, default := dflt } final = .ok final := by
  cases final <;> rfl

theorem traverse_plain (pattern input fallback dflt : JSValue) (keys : List JSValue)
    (h : patternKeys pattern = .ok keys) :
    traverse pattern input { fallback := fallback, default := dflt }
      = .ok (finalOf (collectTasks keys input fallback) dflt) := by
  simp only [traverse, h, pipeline_plain]

/-- C4 (amended).  A flat sequence pattern `['...', k]` is read as the two
separate patterns `'...'` and `k`.  The step sequence given as one element of the
pattern, `[['...', k]]`, is resolved as a recursive wildcard: for every key `k`
that is not the name of a member every object inherits (`inheritedNames`) and
every input of plain data in which no value stored under `k` is a sequence,
`traverse` returns the values other than `null` and `undefined` stored under `k`
at any depth (the bare value when there is one, nothing when there is none). -/
theorem traverse_wildcard_sequence (input : JSValue) (k : String)
    (_hk : k ∉ inheritedNames)
    (h : ∀ x ∈ specValuesUnder k input, isArray x = false) :
    traverse (.arr [.arr [.str "...", .str k]]) input {}
      = .ok (finalOf ((specValuesUnder k input).filter (fun x => !isNullish x)) .null) ∧
    traverse (.arr [.str "...", .str k]) input {}
      = .ok (finalOf (search input (.str "...") ++ search input (.str k)) .null) := by
  have hp : ∀ xs, pipeline {} xs = .ok xs := pipeline_plain .null .null
  constructor
  · have hs : search input (.arr [.str "...", .str k])
        = (specValuesUnder k input).filter (fun x => !isNullish x) := by
      have hd := deepSearch_wildcard_spec input k h
      have hc := spread_collapse _ (mem_filter_present _ h)
      simp only [search]
      rw [hd]
      generalize collapse _ = r at hc ⊢
      cases r <;> exact hc
    simp only [traverse, patternKeys, hp, collectTasks, List.flatMap_cons,
      List.flatMap_nil, List.append_nil, hs]
    generalize List.filter _ _ = l
    match l with
    | [] => rfl
    | _ :: _ => rfl
  · simp only [traverse, patternKeys, hp, collectTasks, List.flatMap_cons,
      List.flatMap_nil, List.append_nil]
    generalize search input (.str "...") ++ search input (.str k) = l
    match l with
    | [] => rfl
    | _ :: _ => rfl

/-- C4, witness: `[['...', 'c']]` on `{a:{b:[{c:1},{c:2},{c:3}]}}`. -/
theorem traverse_wildcard_sequence_witness :
    "c" ∉ inheritedNames ∧
    (∀ x ∈ specValuesUnder "c" scenarioTree, isArray x = false) ∧
    traverse (.arr [.arr [.str "...", .str "c"]]) scenarioTree {}
      = .ok (finalOf ((specValuesUnder "c" scenarioTree).filter
          (fun x => !isNullish x)) .null) ∧
    traverse (.arr [.str "...", .str "c"]) scenarioTree {}
      = .ok (finalOf (search scenarioTree (.str "...") ++ search scenarioTree (.str "c"))
          .null) :=
  ⟨by decide, by decide,
    traverse_wildcard_sequence scenarioTree "c" (by decide) (by decide)⟩

/-- C4, counterexample: `traverse(['...', 'c'], {a:{b:[{c:1},{c:2},{c:3}]}})`
returns `null`, not `[1,2,3]`; the nested pattern `[['...', 'c']]` and the
shorthand `'.c'` return `[1,2,3]`. -/
theorem traverse_flat_wildcard_sequence_finds_nothing :
    traverse (.arr [.str "...", .str "c"]) scenarioTree {} = .ok .null ∧
    traverse (.arr [.str "...", .str "c"]) scenarioTree {}
      ≠ .ok (.arr [.num 1, .num 2, .num 3]) ∧
    traverse (.arr [.arr [.str "...", .str "c"]]) scenarioTree {}
      = .ok (.arr [.num 1, .num 2, .num 3]) ∧
    traverse (.str ".c") scenarioTree {} = .ok (.arr [.num 1, .num 2, .num 3]) := by
  decide


/-- C9 (code at the failing input).  On a sequence path `parseKeyPath` returns
the elements unchanged, whatever they contain: `['a>b', 'c']` stays
`['a>b', 'c']`, although the same string alone parses to `a, b`. -/
theorem parseKeyPath_sequence_unexpanded :
    (∀ ks : List JSValue, parseKeyPath (.arr ks) = ks) ∧
    parseKeyPath (.arr [.str "a>b", .str "c"]) = [.str "a>b", .str "c"] ∧
    parseKeyPath (.arr [.str "a>b", .str "c"]) ≠ [.str "a", .str "b", .str "c"] ∧
    parseKeyPath (.str "a>b") = [.str "a", .str "b"] :=
  ⟨parseKeyPath_arr, by decide, by decide, by decide⟩

/-! ## The condition evaluator -/

theorem deepSearch_parsed (entry path : JSValue) :
    deepSearch entry (.arr (parseKeyPath path)) = deepSearch entry path := by
  simp only [deepSearch, parseKeyPath_arr]

theorem filter_eq_self_of_all {α : Type} (p : α → Bool) (xs : List α)
    (h : ∀ x ∈ xs, p x = true) : xs.filter p = xs :=
  List.filter_eq_self.mpr h

theorem find_none_of_all_operators (conds : List String)
    (h : ∀ c ∈ conds, hasOperator c = true) :
    conds.find? (fun x => !hasOperator x) = none := by
  rw [List.find?_eq_none]
  intro x hx
  simp [h x hx]

theorem findFilter_predicates (entries : List JSValue) (conds : List String)
    (h : ∀ c ∈ conds, hasOperator c = true) (hne : conds ≠ []) :
    findFilter (.arr entries) conds = oneOrAll (survivors entries conds) := by
  have he : conds.isEmpty = false := by
    cases conds with
    | nil => exact absurd rfl hne
    | cons _ _ => rfl
  simp only [findFilter, he, find_none_of_all_operators conds h,
    filter_eq_self_of_all hasOperator conds h]
  rfl

theorem mem_survivors (entries : List JSValue) (conds : List String) (e : JSValue) :
    e ∈ survivors entries conds ↔ e ∈ entries ∧ ∀ c ∈ conds, condMatches e c = true := by
  simp [survivors, List.mem_filter, List.all_eq_true]

theorem survivors_append (entries : List JSValue) (P Q : List String) :
    survivors entries (P ++ Q)
      = entries.filter (fun e =>
          decide (e ∈ survivors entries P) && decide (e ∈ survivors entries Q)) := by
  unfold survivors
  apply List.filter_congr
  intro e he
  rw [Bool.eq_iff_iff]
  simp only [List.all_append, Bool.and_eq_true, List.all_eq_true, decide_eq_true_eq,
    List.mem_filter]
  tauto

theorem findFilter_eq_remaining (entries : List JSValue) (conditions : List String)
    (hne : conditions ≠ []) :
    findFilter (.arr entries) conditions = oneOrAll (remaining entries conditions) := by
  have he : conditions.isEmpty = false := by
    cases conditions with
    | nil => exact absurd rfl hne
    | cons _ _ => rfl
  simp only [findFilter, he, remaining]
  cases conditions.find? (fun x => !hasOperator x) with
  | none => rfl
  | some key =>
    by_cases hk : (key.data != []) = true
    · simp [hk]
    · simp [hk]

/-- C2 (amended).  The predicate `'ok=true'` keeps exactly the entries whose `ok`
resolves to a value that is neither `null` nor `undefined` and is loosely equal
to the string `'true'`; the projection key `'id'` replaces each survivor by what
its `id` resolves to, dropping the survivors for which that is `null` or
`undefined`; the result is the bare value when one value remains.  The boolean
`true` is not loosely equal to `'true'`; with the predicate `'ok=1'` scenario 3
returns the bare value `1`. -/
theorem find_predicate_then_projection (entries : List JSValue) :
    findFilter (.arr entries) ["ok=true", "id"]
      = oneOrAll ((entries.filter (fun e =>
          !isNullish (deepSearch e (.str "ok"))
            && looseEq (deepSearch e (.str "ok")) "true")).flatMap
          (fun e => pushOne (deepSearch e (.str "id")))) ∧
    looseEq (.bool true) "true" = false ∧
    traverse (.str "items") scenarioItems { find := some ["ok=1", "id"] }
      = .ok (.num 1) := by
  refine ⟨?_, by decide, by decide⟩
  rw [findFilter_eq_remaining _ _ (by decide)]
  have hk : ["ok=true", "id"].find? (fun x => !hasOperator x) = some "id" := by decide
  have hf : ["ok=true", "id"].filter hasOperator = ["ok=true"] := by decide
  have hd : ("id".data != []) = true := by decide
  have hc : ∀ e, condMatches e "ok=true"
      = (!isNullish (deepSearch e (.str "ok"))
          && looseEq (deepSearch e (.str "ok")) "true") := by
    intro e
    have h1 : isPrefix.find? (fun p => includes "ok=true" p) = some '=' := by decide
    have h2 : split "ok=true" '=' = ["ok", "true"] := by decide
    simp only [condMatches, h1, h2, deepSearch_parsed]
  simp only [remaining, hk, hf, hd, if_true, project, survivors, List.all_cons,
    List.all_nil, Bool.and_true, hc, deepSearch_parsed]

/-- C2, counterexample: scenario 3 returns the empty collection, not `1`. -/
theorem scenario_find_returns_empty :
    traverse (.str "items") scenarioItems { find := some ["ok=true", "id"] }
      = .ok (.arr []) ∧
    traverse (.str "items") scenarioItems { find := some ["ok=true", "id"] }
      ≠ .ok (.num 1) := by
  decide

/-- C3.  AND semantics: for predicates only (every condition contains a reserved
operator), `findFilter` returns the list of survivors (collapsed when there is a
condition at all); the survivors of `P` and `Q` together are the entries, in
their original order, that survive `P` alone and survive `Q` alone; and with any
number of predicates an entry survives exactly when it survives each predicate
alone. -/
theorem and_semantics (entries : List JSValue) (P Q : List String)
    (hP : ∀ p ∈ P, hasOperator p = true) (hQ : ∀ q ∈ Q, hasOperator q = true) :
    findFilter (.arr entries) (P ++ Q)
      = (if (P ++ Q).isEmpty then .arr (survivors entries (P ++ Q))
          else oneOrAll (survivors entries (P ++ Q))) ∧
    survivors entries (P ++ Q)
      = entries.filter (fun e =>
          decide (e ∈ survivors entries P) && decide (e ∈ survivors entries Q)) ∧
    (∀ e, e ∈ survivors entries (P ++ Q) ↔
      e ∈ entries ∧ ∀ c ∈ P ++ Q, e ∈ survivors entries [c]) := by
  refine ⟨?_, survivors_append entries P Q, ?_⟩
  · by_cases hne : P ++ Q = []
    · rw [hne]
      simp [findFilter, survivors]
    · have he : (P ++ Q).isEmpty = false := by
        cases hpq : P ++ Q with
        | nil => exact absurd hpq hne
        | cons _ _ => rfl
      rw [he]
      refine findFilter_predicates entries (P ++ Q) ?_ hne
      intro c hc
      rcases List.mem_append.mp hc with h | h
      · exact hP c h
      · exact hQ c h
  · intro e
    simp only [mem_survivors]
    constructor
    · rintro ⟨he, hall⟩
      exact ⟨he, fun c hc => ⟨he, fun d hd => by
        rw [List.mem_singleton] at hd
        rw [hd]
        exact hall c hc⟩⟩
    · rintro ⟨he, hall⟩
      exact ⟨he, fun c hc => (hall c hc).2 c (List.mem_singleton.mpr rfl)⟩

/-- C3, witness: the entries `{a:1,b:2}`, `{a:1,b:3}`, `{a:2,b:2}` with
`P = ['a=1']` and `Q = ['b=2']`. -/
theorem and_semantics_witness :
    (∀ p ∈ ["a=1"], hasOperator p = true) ∧ (∀ q ∈ ["b=2"], hasOperator q = true) ∧
    findFilter (.arr [.obj [("a", .num 1), ("b", .num 2)],
        .obj [("a", .num 1), ("b", .num 3)], .obj [("a", .num 2), ("b", .num 2)]])
      (["a=1"] ++ ["b=2"]) = .obj [("a", .num 1), ("b", .num 2)] :=
  ⟨by decide, by decide,
    (and_semantics [.obj [("a", .num 1), ("b", .num 2)],
      .obj [("a", .num 1), ("b", .num 3)], .obj [("a", .num 2), ("b", .num 2)]]
      ["a=1"] ["b=2"] (by decide) (by decide)).1⟩

/-- C6 (amended).  Collapsing in the condition evaluator: for a non-empty list of
conditions `findFilter` returns the empty collection when nothing remains (no
entry survives, or no survivor has a present projection), the bare element when
exactly one remains, and the collection otherwise. -/
theorem findFilter_collapsing (entries : List JSValue) (conditions : List String)
    (hne : conditions ≠ []) :
    (remaining entries conditions = [] →
      findFilter (.arr entries) conditions = .arr []) ∧
    (∀ x, remaining entries conditions = [x] →
      findFilter (.arr entries) conditions = x) ∧
    (2 ≤ (remaining entries conditions).length →
      findFilter (.arr entries) conditions = .arr (remaining entries conditions)) := by
  rw [findFilter_eq_remaining entries conditions hne]
  refine ⟨fun h => by rw [h]; rfl, fun x h => by rw [h]; rfl, fun h => ?_⟩
  match hr : remaining entries conditions, h with
  | _ :: _ :: _, _ => rfl

/-- C6, witness: one of two entries survives `'a=1'` and is returned bare. -/
theorem findFilter_collapsing_witness :
    ["a=1"] ≠ [] ∧
    findFilter (.arr [.obj [("a", .num 1)], .obj [("a", .num 2)]]) ["a=1"]
      = .obj [("a", .num 1)] :=
  ⟨by decide,
    (findFilter_collapsing [.obj [("a", .num 1)], .obj [("a", .num 2)]] ["a=1"]
      (by decide)).2.1 _ (by decide)⟩

/-- C6, counterexample: when no entry survives, `findFilter` returns the empty
collection, not nothing. -/
theorem findFilter_returns_empty_collection :
    findFilter (.arr [.obj [("a", .num 1)]]) ["a=2"] = .arr [] ∧
    findFilter (.arr [.obj [("a", .num 1)]]) ["a=2"] ≠ .undefined ∧
    findFilter (.arr [.obj [("a", .num 1)]]) ["a=2"] ≠ .null := by
  decide


/-! ## Resolution order and the collapsing of the matches -/

theorem finalOf_of_ne_nil (tasks : List JSValue) (dflt : JSValue) (h : tasks ≠ []) :
    finalOf tasks dflt = oneOrAll tasks := by
  match tasks, h with
  | [_], _ => rfl
  | _ :: _ :: _, _ => rfl

theorem collectTasks_primary (keys : List JSValue) (input fallback : JSValue)
    (h : keys.flatMap (search input) ≠ []) :
    collectTasks keys input fallback = keys.flatMap (search input) := by
  unfold collectTasks
  match hk : keys.flatMap (search input), h with
  | _ :: _, _ => rfl

theorem collectTasks_fallback (keys : List JSValue) (input fallback : JSValue)
    (h : keys.flatMap (search input) = []) :
    collectTasks keys input fallback
      = if truthy fallback then searchFallback input (fallbackKeys fallback)
        else [] := by
  unfold collectTasks
  rw [h]

theorem searchFallback_first (input : JSValue) (pre : List JSValue) (key : JSValue)
    (post : List JSValue) (hpre : ∀ p ∈ pre, search input p = [])
    (hkey : search input key ≠ []) :
    searchFallback input (pre ++ key :: post) = search input key := by
  induction pre with
  | nil =>
    rw [List.nil_append, searchFallback]
    split
    · next h0 => exact absurd h0 hkey
    · rfl
  | cons p pre ih =>
    simp only [List.cons_append, searchFallback, hpre p (List.mem_cons_self _ _)]
    exact ih (fun q hq => hpre q (List.mem_cons_of_mem _ hq))

theorem searchFallback_none (input : JSValue) (keys : List JSValue)
    (h : ∀ key ∈ keys, search input key = []) : searchFallback input keys = [] := by
  induction keys with
  | nil => rfl
  | cons p keys ih =>
    simp only [searchFallback, h p (List.mem_cons_self _ _)]
    exact ih (fun q hq => h q (List.mem_cons_of_mem _ hq))

/-- C5 (amended).  Collapsing law: with no post-processing option (only
`fallback` and `default` may be set) `traverse` collapses the accumulated
matches: no match gives the configured default, exactly one match is returned as
that bare match, two or more as the collection of all of them. -/
theorem collapsing_law (pattern input fallback dflt : JSValue) (keys : List JSValue)
    (h : patternKeys pattern = .ok keys) :
    (collectTasks keys input fallback = [] →
      traverse pattern input { fallback := fallback, default := dflt } = .ok dflt) ∧
    (∀ t, collectTasks keys input fallback = [t] →
      traverse pattern input { fallback := fallback, default := dflt } = .ok t) ∧
    (2 ≤ (collectTasks keys input fallback).length →
      traverse pattern input { fallback := fallback, default := dflt }
        = .ok (.arr (collectTasks keys input fallback))) := by
  rw [traverse_plain pattern input fallback dflt keys h]
  refine ⟨fun h0 => by rw [h0]; rfl, fun t h1 => by rw [h1]; rfl, fun h2 => ?_⟩
  match ht : collectTasks keys input fallback, h2 with
  | _ :: _ :: _, _ => rfl

/-- C5, witness: the three matches of `'a>b'` in `{a:{b:[{c:1},{c:2},{c:3}]}}`
are returned as a collection. -/
theorem collapsing_law_witness :
    patternKeys (.str "a>b") = .ok [.str "a>b"] ∧
    traverse (.str "a>b") scenarioTree { fallback := .null, default := .null }
      = .ok (.arr (collectTasks [.str "a>b"] scenarioTree .null)) :=
  ⟨rfl, (collapsing_law (.str "a>b") scenarioTree .null .null [.str "a>b"] rfl).2.2
    (by decide)⟩

/-- C5, counterexample: after `unique` the two matches `1, 1` are returned as the
one-element collection `[1]`; after `limit: 1` three matches are returned as the
one-element collection `[1]`; after `flatten` the two matches `[], []` are
returned as the empty collection; and with no option at all the single match
`[5]` of `'a'` in `{a:[[5]]}` is returned bare, as a one-element collection, and
the single match `[]` in `{a:[[]]}` as an empty collection. -/
theorem pipeline_does_not_collapse :
    traverse (.arr [.str "a", .str "a"]) (.obj [("a", .num 1)]) { unique := true }
      = .ok (.arr [.num 1]) ∧
    traverse (.str "a") (.obj [("a", .arr [.num 1, .num 2, .num 3])]) { limit := .num 1 }
      = .ok (.arr [.num 1]) ∧
    traverse (.str "a") (.obj [("a", .arr [.arr [], .arr []])]) { flatten := true }
      = .ok (.arr []) ∧
    traverse (.str "a") (.obj [("a", .arr [.arr [.num 5]])]) {} = .ok (.arr [.num 5]) ∧
    traverse (.str "a") (.obj [("a", .arr [.arr []])]) {} = .ok (.arr []) := by
  decide

/-- C7 (amended).  Resolution order: with no post-processing option, when the
primary patterns have at least one match `traverse` returns these matches
(collapsed) whatever `fallback` and `default` are; otherwise, when `fallback` is
truthy, it returns the matches of the first fallback pattern, in order, that has
any; otherwise (a falsy `fallback`, the empty string included, or no fallback
pattern with a match) it returns the configured default. -/
theorem resolution_order (pattern input fallback dflt : JSValue) (keys : List JSValue)
    (h : patternKeys pattern = .ok keys) :
    (keys.flatMap (search input) ≠ [] →
      traverse pattern input { fallback := fallback, default := dflt }
        = .ok (oneOrAll (keys.flatMap (search input)))) ∧
    (keys.flatMap (search input) = [] → truthy fallback = true →
      ∀ pre key post, fallbackKeys fallback = pre ++ key :: post →
        (∀ p ∈ pre, search input p = []) → search input key ≠ [] →
        traverse pattern input { fallback := fallback, default := dflt }
          = .ok (oneOrAll (search input key))) ∧
    (keys.flatMap (search input) = [] →
      (truthy fallback = false ∨ ∀ key ∈ fallbackKeys fallback, search input key = []) →
      traverse pattern input { fallback := fallback, default := dflt } = .ok dflt) := by
  rw [traverse_plain pattern input fallback dflt keys h]
  refine ⟨fun h1 => ?_, fun h0 ht pre key post hfk hpre hkey => ?_, fun h0 hcase => ?_⟩
  · rw [collectTasks_primary keys input fallback h1, finalOf_of_ne_nil _ _ h1]
  · rw [collectTasks_fallback keys input fallback h0, if_pos ht, hfk,
      searchFallback_first input pre key post hpre hkey, finalOf_of_ne_nil _ _ hkey]
  · rw [collectTasks_fallback keys input fallback h0]
    rcases hcase with hf | hnone
    · simp [hf, finalOf]
    · rw [searchFallback_none input _ hnone]
      simp [finalOf]

/-- C7, witness: scenario 4 (`"missing"`, fallback `"a"`, default `"none"` on
`{a:42}` gives `42`) and scenario 5 (no fallback gives `"none"`). -/
theorem resolution_order_witness :
    patternKeys (.str "missing") = .ok [.str "missing"] ∧
    traverse (.str "missing") (.obj [("a", .num 42)])
      { fallback := .str "a", default := .str "none" } = .ok (.num 42) ∧
    traverse (.str "missing") (.obj [("a", .num 42)])
      { fallback := .null, default := .str "none" } = .ok (.str "none") :=
  ⟨rfl,
    (resolution_order (.str "missing") (.obj [("a", .num 42)]) (.str "a") (.str "none")
      [.str "missing"] rfl).2.1 (by decide) (by decide) [] (.str "a") [] rfl
      (by decide) (by decide),
    (resolution_order (.str "missing") (.obj [("a", .num 42)]) .null (.str "none")
      [.str "missing"] rfl).2.2 (by decide) (Or.inl (by decide))⟩

/-- C7, counterexample: the fallback pattern `""` has the match `5` in `{"": 5}`,
but `traverse("missing", {"": 5}, {fallback: "", default: "none"})` returns
`"none"`: an empty-string fallback is falsy and is not tried. -/
theorem empty_string_fallback_not_tried :
    search (.obj [("", .num 5)]) (.str "") = [.num 5] ∧
    traverse (.str "missing") (.obj [("", .num 5)])
      { fallback := .str "", default := .str "none" } = .ok (.str "none") ∧
    traverse (.str "") (.obj [("", .num 5)]) { default := .str "none" }
      = .ok (.num 5) := by
  decide


/-! ## Compound path strings -/

theorem splitChars_ne_nil (sep : Char) (cs : List Char) : splitChars sep cs ≠ [] := by
  induction cs with
  | nil => simp [splitChars]
  | cons c cs ih =>
    unfold splitChars
    split
    · simp
    · split
      · simp
      · simp

theorem splitChars_no_sep (sep : Char) (k : List Char) (h : sep ∉ k) :
    splitChars sep k = [k] := by
  induction k with
  | nil => rfl
  | cons c cs ih =>
    have hc : c ≠ sep := fun e => h (e ▸ List.mem_cons_self _ _)
    have hcs : sep ∉ cs := fun m => h (List.mem_cons_of_mem _ m)
    simp [splitChars, hc, ih hcs]

theorem splitChars_append_sep (sep : Char) (k rest : List Char) (h : sep ∉ k) :
    splitChars sep (k ++ sep :: rest) = k :: splitChars sep rest := by
  induction k with
  | nil => simp [splitChars]
  | cons c cs ih =>
    have hc : c ≠ sep := fun e => h (e ▸ List.mem_cons_self _ _)
    have hcs : sep ∉ cs := fun m => h (List.mem_cons_of_mem _ m)
    simp [splitChars, hc, ih hcs]

theorem splitChars_joinChars (sep : Char) : ∀ (ks : List String), ks ≠ [] →
    (∀ k ∈ ks, sep ∉ k.data) → splitChars sep (joinChars sep ks) = ks.map String.data
  | [], h, _ => absurd rfl h
  | [k], _, hk => by
    simp [joinChars, splitChars_no_sep sep k.data (hk k (by simp))]
  | k :: k2 :: rest, _, hk => by
    rw [joinChars, splitChars_append_sep sep _ _ (hk k (by simp)),
      splitChars_joinChars sep (k2 :: rest) (by simp)
        (fun x hx => hk x (List.mem_cons_of_mem _ hx))]
    rfl

theorem includes_iff_mem (s : String) (p : Char) : includes s p = true ↔ p ∈ s.data := by
  simp [includes, List.contains, List.elem_iff]

theorem mem_joinChars (sep p : Char) : ∀ (ks : List String),
    p ∈ joinChars sep ks ↔ (∃ k ∈ ks, p ∈ k.data) ∨ (p = sep ∧ 2 ≤ ks.length)
  | [] => by simp [joinChars]
  | [k] => by simp [joinChars]
  | k :: k2 :: rest => by
    have hlen : 2 ≤ (k :: k2 :: rest).length := by simp
    rw [joinChars, List.mem_append, List.mem_cons, mem_joinChars sep p (k2 :: rest)]
    simp only [hlen, and_true, List.mem_cons, exists_eq_or_imp]
    generalize (∃ a ∈ rest, p ∈ a.data) = E
    generalize (2 ≤ (k2 :: rest).length) = L
    tauto

theorem includes_joinKeys (sep p : Char) (ks : List String) (hp : p ∈ isPrefix)
    (hk : ∀ k ∈ ks, ∀ q ∈ isPrefix, includes k q = false) :
    includes (joinKeys sep ks) p = (decide (p = sep) && decide (2 ≤ ks.length)) := by
  rw [Bool.eq_iff_iff, includes_iff_mem]
  simp only [joinKeys, mem_joinChars, Bool.and_eq_true, decide_eq_true_eq]
  constructor
  · rintro (⟨k, hkm, hpk⟩ | h)
    · have h1 := hk k hkm p hp
      rw [(includes_iff_mem k p).mpr hpk] at h1
      exact absurd h1 (by simp)
    · exact h
  · exact fun h => Or.inr h

theorem parseKeyPath_joinKeys (sep : Char) (ks : List String) (hsep : sep ∈ isPrefix)
    (hne : ks ≠ []) (hk : ∀ k ∈ ks, ∀ q ∈ isPrefix, includes k q = false) :
    parseKeyPath (.str (joinKeys sep ks)) = ks.map .str := by
  have hnosep : ∀ k ∈ ks, sep ∉ k.data := by
    intro k hkm hmem
    have h1 := hk k hkm sep hsep
    rw [(includes_iff_mem k sep).mpr hmem] at h1
    exact absurd h1 (by simp)
  have hsplit : split (joinKeys sep ks) sep = ks :=  by
    simp only [split, joinKeys, splitChars_joinChars sep ks hne hnosep, List.map_map]
    exact List.map_id ks
  have hinc : ∀ p ∈ isPrefix, includes (joinKeys sep ks) p
      = (decide (p = sep) && decide (2 ≤ ks.length)) :=
    fun p hp => includes_joinKeys sep p ks hp hk
  have h1 := hinc '>' (by decide)
  have h2 := hinc '=' (by decide)
  have h3 := hinc ':' (by decide)
  simp only [parseKeyPath, isPrefix, List.find?, h1, h2, h3]
  by_cases hlen : 2 ≤ ks.length
  · simp only [isPrefix, List.mem_cons, List.mem_singleton, List.not_mem_nil, or_false] at hsep
    rcases hsep with rfl | rfl | rfl
    · simp [hlen, hsplit]
    · simp [hlen, hsplit]
    · simp [hlen, hsplit]
  · have h1k : ∃ k, ks = [k] := by
      match ks, hne, hlen with
      | [k], _, _ => exact ⟨k, rfl⟩
      | _ :: _ :: _, _, hl => exact absurd (by simp) hl
    obtain ⟨k, rfl⟩ := h1k
    simp [joinKeys, joinChars]

theorem startsWith_joinKeys (sep c : Char) (k : String) (rest : List String)
    (hc : sep ≠ c) : startsWith (joinKeys sep (k :: rest)) c = startsWith k c := by
  cases rest with
  | nil => rfl
  | cons k2 r =>
    simp only [startsWith, joinKeys, joinChars]
    cases k.data with
    | nil => simp [hc]
    | cons a as => rfl

theorem search_of_plain_string (input : JSValue) (s : String)
    (h1 : startsWith s '.' = false) (h2 : startsWith s '#' = false) :
    search input (.str s) = spread (deepSearch input (.str s)) := by
  simp only [search]
  cases deepSearch input (.str s) <;> simp [h1, h2]

theorem search_of_sequence (input : JSValue) (ks : List JSValue) :
    search input (.arr ks) = spread (deepSearch input (.arr ks)) := by
  simp only [search]
  cases deepSearch input (.arr ks) <;> rfl

theorem search_joinKeys (input : JSValue) (sep : Char) (k : String) (rest : List String)
    (hsep : sep ∈ isPrefix)
    (hk : ∀ x ∈ k :: rest, ∀ q ∈ isPrefix, includes x q = false)
    (h1 : startsWith k '.' = false) (h2 : startsWith k '#' = false) :
    search input (.str (joinKeys sep (k :: rest)))
      = search input (.arr ((k :: rest).map .str)) := by
  have hs1 : sep ≠ '.' := by
    intro e
    rw [e] at hsep
    exact absurd hsep (by decide)
  have hs2 : sep ≠ '#' := by
    intro e
    rw [e] at hsep
    exact absurd hsep (by decide)
  rw [search_of_plain_string input _ (by rw [startsWith_joinKeys sep _ k rest hs1, h1])
      (by rw [startsWith_joinKeys sep _ k rest hs2, h2]),
    search_of_sequence]
  simp only [deepSearch, parseKeyPath_arr,
    parseKeyPath_joinKeys sep (k :: rest) hsep (by simp) hk]

theorem traverse_congr_search (input : JSValue) (a b : JSValue) (options : Options)
    (ha : patternKeys a = .ok [a]) (hb : search input a = search input b) :
    traverse a input options = traverse (.arr [b]) input options := by
  have hb2 : patternKeys (.arr [b]) = .ok [b] := rfl
  simp only [traverse, ha, hb2, collectTasks, List.flatMap_cons, List.flatMap_nil, hb]

/-! ### Literal steps -/

theorem deepSearchKeys_cons (current : JSValue) (rest : List JSValue) (obj : JSValue) :
    deepSearchKeys (current :: rest) obj
      = if isNullish obj then .undefined
        else if isWildcard current then
          collapse (recur (toPropertyKey (rest.headD .undefined))
            (fun d => deepSearchKeys (rest.drop 1) d) obj)
        else deepSearchKeys rest (literalStep obj (toPropertyKey current)) := by
  cases rest with
  | nil => rw [deepSearchKeys]; rfl
  | cons next rest => rw [deepSearchKeys]; rfl

theorem foldl_literalStep_undefined : ∀ (ks : List String),
    ks.foldl (fun v k => if isNullish v then JSValue.undefined else literalStep v k)
      .undefined = .undefined
  | [] => rfl
  | _ :: ks => by
    rw [List.foldl_cons]
    exact foldl_literalStep_undefined ks

theorem deepSearchKeys_literal : ∀ (ks : List String) (v : JSValue),
    (∀ k ∈ ks, k ≠ "...") →
    deepSearchKeys (ks.map .str) v
      = ks.foldl (fun v k => if isNullish v then JSValue.undefined else literalStep v k) v
  | [], _, _ => rfl
  | k :: ks, v, hk => by
    rw [List.map_cons, deepSearchKeys_cons, List.foldl_cons]
    by_cases hn : isNullish v = true
    · rw [if_pos hn, if_pos hn, foldl_literalStep_undefined]
    · have hw : isWildcard (.str k) = false := by
        simp [isWildcard, hk k (List.mem_cons_self _ _)]
      rw [if_neg hn, if_neg hn, hw]
      simp only [Bool.false_eq_true, if_false]
      rw [show toPropertyKey (.str k) = k from rfl]
      exact deepSearchKeys_literal ks _ (fun x hx => hk x (List.mem_cons_of_mem _ hx))

/-- C8 (amended).  Compound path strings: for keys `k1, ..., kn` (`n ≥ 1`) that
contain no reserved separator and whose first key does not start with `.` or
`#`, and for each separator `>`, `=` or `:`, `traverse` of the compound string
returns, for every input and all options, what it returns for the step sequence
`[k1, ..., kn]` given as one pattern.  Without post-processing this is what
`deepSearch` finds for that step sequence, after the collapsing of the
orchestrator (the elements of a found sequence are the matches: one match is
returned bare, no match gives the default).  When no key is `...`, `deepSearch`
resolves the step sequence one literal step at a time, starting from the input:
nothing is found in `null` or `undefined`, and every other value takes the
literal step of line 121.  The three statements relate results of the code to
one another; none depends on what a single property lookup returns. -/
theorem compound_path (sep : Char) (k : String) (rest : List String)
    (hsep : sep ∈ isPrefix)
    (hk : ∀ x ∈ k :: rest, ∀ q ∈ isPrefix, includes x q = false)
    (h1 : startsWith k '.' = false) (h2 : startsWith k '#' = false) :
    (∀ input options,
      traverse (.str (joinKeys sep (k :: rest))) input options
        = traverse (.arr [.arr ((k :: rest).map .str)]) input options) ∧
    (∀ input dflt,
      traverse (.str (joinKeys sep (k :: rest))) input { default := dflt }
        = .ok (finalOf (spread (deepSearch input (.arr ((k :: rest).map .str)))) dflt)) ∧
    (∀ input, (∀ x ∈ k :: rest, x ≠ "...") →
      deepSearch input (.arr ((k :: rest).map .str))
        = (k :: rest).foldl
            (fun v x => if isNullish v then JSValue.undefined else literalStep v x)
            input) := by
  refine ⟨?_, ?_, ?_⟩
  · intro input options
    exact traverse_congr_search input _ _ options rfl
      (search_joinKeys input sep k rest hsep hk h1 h2)
  · intro input dflt
    have hs := search_joinKeys input sep k rest hsep hk h1 h2
    rw [search_of_sequence] at hs
    rw [traverse_plain (.str (joinKeys sep (k :: rest))) input .null dflt
      [.str (joinKeys sep (k :: rest))] rfl]
    have hc : collectTasks [.str (joinKeys sep (k :: rest))] input .null
        = spread (deepSearch input (.arr ((k :: rest).map .str))) := by
      simp only [collectTasks, List.flatMap_cons, List.flatMap_nil, List.append_nil, hs]
      cases spread (deepSearch input (.arr ((k :: rest).map .str))) <;> rfl
    rw [hc]
  · intro input hlit
    simp only [deepSearch, parseKeyPath_arr]
    exact deepSearchKeys_literal (k :: rest) input hlit

/-- C8, witness: scenario 1, `"a>b"` on `{a:{b:[{c:1},{c:2},{c:3}]}}`, returns
the three-element sequence, as the step sequence `a, b` does. -/
theorem compound_path_witness :
    '>' ∈ isPrefix ∧ (∀ x ∈ ["a", "b"], ∀ q ∈ isPrefix, includes x q = false) ∧
    startsWith "a" '.' = false ∧ startsWith "a" '#' = false ∧
    traverse (.str (joinKeys '>' ["a", "b"])) scenarioTree {}
      = traverse (.arr [.arr [.str "a", .str "b"]]) scenarioTree {} ∧
    traverse (.str "a>b") scenarioTree {}
      = .ok (.arr [.obj [("c", .num 1)], .obj [("c", .num 2)], .obj [("c", .num 3)]]) :=
  ⟨by decide, by decide, by decide, by decide,
    (compound_path '>' "a" ["b"] (by decide) (by decide) (by decide) (by decide)).1
      scenarioTree {}, by decide⟩

/-- C8, counterexample.  The keys `.a` and `b` contain no reserved separator, and
resolved one literal key at a time in `{".a": {b: 1}}` they give `1`; `traverse`
of the compound string `".a>b"` returns `null`, because a pattern string that
starts with `.` is searched again as the wildcard pattern `['...', 'a>b']`.  The
keys `a`, `...`, `c` looked up one at a time in `{a:{"...":{c:1}, c:2}}` give
`1`; `traverse` of `"a>...>c"` reads `...` as the wildcard and returns `[2,1]`.
The keys `a`, `b` looked up one at a time in `{a:{b:[7]}}` give the sequence
`[7]`; `traverse` of `"a>b"` returns its only element `7`. -/
theorem compound_path_with_dot_prefix :
    getProp (getProp (.obj [(".a", .obj [("b", .num 1)])]) ".a") "b" = .num 1 ∧
    deepSearch (.obj [(".a", .obj [("b", .num 1)])]) (.arr [.str ".a", .str "b"])
      = .num 1 ∧
    traverse (.arr [.arr [.str ".a", .str "b"]]) (.obj [(".a", .obj [("b", .num 1)])]) {}
      = .ok (.num 1) ∧
    traverse (.str ".a>b") (.obj [(".a", .obj [("b", .num 1)])]) {} = .ok .null ∧
    getProp (getProp (getProp
        (.obj [("a", .obj [("...", .obj [("c", .num 1)]), ("c", .num 2)])]) "a") "...") "c"
      = .num 1 ∧
    traverse (.str "a>...>c")
      (.obj [("a", .obj [("...", .obj [("c", .num 1)]), ("c", .num 2)])]) {}
      = .ok (.arr [.num 2, .num 1]) ∧
    getProp (getProp (.obj [("a", .obj [("b", .arr [.num 7])])]) "a") "b"
      = .arr [.num 7] ∧
    deepSearch (.obj [("a", .obj [("b", .arr [.num 7])])]) (.arr [.str "a", .str "b"])
      = .arr [.num 7] ∧
    traverse (.str "a>b") (.obj [("a", .obj [("b", .arr [.num 7])])]) {}
      = .ok (.num 7) := by
  decide

/-! ## The unique stage -/

theorem sameValueZero_refl (a : JSValue × Nat) : sameValueZero a a = true := by
  unfold sameValueZero
  by_cases h : isPrimitive a.1 = true
  · rw [if_pos h]
    exact (JSValue.beq_iff a.1 a.1).mpr rfl
  · rw [if_neg h]
    simp [h]

theorem sameValueZero_fst (a b : JSValue × Nat) (ha : isPrimitive a.1 = true) :
    sameValueZero a b = true ↔ a.1 = b.1 := by
  unfold sameValueZero
  rw [if_pos ha]
  exact JSValue.beq_iff a.1 b.1

theorem sameValueZero_ref (a b : JSValue × Nat) (ha : isPrimitive a.1 = false) :
    sameValueZero a b = true ↔ isPrimitive b.1 = false ∧ a.2 = b.2 := by
  unfold sameValueZero
  rw [if_neg (by simp [ha])]
  simp

theorem sameValueZero_symm (a b : JSValue × Nat) (h : sameValueZero a b = true) :
    sameValueZero b a = true := by
  cases ha : isPrimitive a.1 with
  | true =>
    have e := (sameValueZero_fst a b ha).mp h
    exact (sameValueZero_fst b a (e ▸ ha)).mpr e.symm
  | false =>
    obtain ⟨hb, e⟩ := (sameValueZero_ref a b ha).mp h
    exact (sameValueZero_ref b a hb).mpr ⟨ha, e.symm⟩

theorem sameValueZero_comm (a b : JSValue × Nat) :
    sameValueZero a b = sameValueZero b a := by
  cases h1 : sameValueZero a b with
  | true => exact (sameValueZero_symm a b h1).symm
  | false =>
    cases h2 : sameValueZero b a with
    | false => rfl
    | true => rw [sameValueZero_symm b a h2] at h1; exact h1.symm

theorem sameValueZero_trans (a b c : JSValue × Nat) (h1 : sameValueZero a b = true)
    (h2 : sameValueZero b c = true) : sameValueZero a c = true := by
  cases ha : isPrimitive a.1 with
  | true =>
    have e1 := (sameValueZero_fst a b ha).mp h1
    have e2 := (sameValueZero_fst b c (e1 ▸ ha)).mp h2
    exact (sameValueZero_fst a c ha).mpr (e1.trans e2)
  | false =>
    obtain ⟨hb, e1⟩ := (sameValueZero_ref a b ha).mp h1
    obtain ⟨hc, e2⟩ := (sameValueZero_ref b c hb).mp h2
    exact (sameValueZero_ref a c ha).mpr ⟨hc, e1.trans e2⟩

/-- The `Set` keeps exactly the first occurrences: an element is added when no
element before it is the same. -/
theorem setAddAll_eq_spec (xs : List (JSValue × Nat)) :
    ∀ (seen before : List (JSValue × Nat)),
    (∀ s ∈ seen, s ∈ before) →
    (∀ b ∈ before, ∃ s ∈ seen, sameValueZero s b = true) →
    setAddAll seen xs = seen ++ specFirstOccurrences before xs := by
  induction xs with
  | nil => intro seen before _ _; simp [setAddAll, specFirstOccurrences]
  | cons x xs ih =>
    intro seen before hsub hrep
    rw [setAddAll, specFirstOccurrences]
    by_cases hany : seen.any (sameValueZero x) = true
    · obtain ⟨s, hs, hxs⟩ := List.any_eq_true.mp hany
      have hb : before.any (fun b => sameValueZero b x) = true :=
        List.any_eq_true.mpr ⟨s, hsub s hs, sameValueZero_symm x s hxs⟩
      rw [if_pos hany, if_pos hb, List.nil_append]
      refine ih seen (before ++ [x]) (fun t ht => List.mem_append_left _ (hsub t ht)) ?_
      intro b hb2
      rcases List.mem_append.mp hb2 with hb3 | hb3
      · exact hrep b hb3
      · rw [List.mem_singleton.mp hb3]
        exact ⟨s, hs, sameValueZero_symm x s hxs⟩
    · have hb : ¬ before.any (fun b => sameValueZero b x) = true := by
        intro hb
        obtain ⟨b, hb1, hb2⟩ := List.any_eq_true.mp hb
        obtain ⟨s, hs, hsb⟩ := hrep b hb1
        exact hany (List.any_eq_true.mpr
          ⟨s, hs, sameValueZero_symm s x (sameValueZero_trans s b x hsb hb2)⟩)
      rw [if_neg hany, if_neg hb,
        ih (seen ++ [x]) (before ++ [x]) ?_ ?_, List.append_assoc]
      · intro t ht
        rcases List.mem_append.mp ht with ht2 | ht2
        · exact List.mem_append_left _ (hsub t ht2)
        · exact List.mem_append_right _ ht2
      · intro b hb2
        rcases List.mem_append.mp hb2 with hb3 | hb3
        · obtain ⟨s, hs, hsb⟩ := hrep b hb3
          exact ⟨s, List.mem_append_left _ hs, hsb⟩
        · rw [List.mem_singleton.mp hb3]
          exact ⟨x, List.mem_append_right _ (List.mem_singleton.mpr rfl),
            sameValueZero_refl x⟩

theorem setAddAll_nil_eq_spec (xs : List (JSValue × Nat)) :
    setAddAll [] xs = specFirstOccurrences [] xs := by
  rw [setAddAll_eq_spec xs [] [] (fun _ h => h) (fun b hb => absurd hb (by simp)),
    List.nil_append]

theorem specFirstOccurrences_sublist (xs : List (JSValue × Nat)) :
    ∀ (before : List (JSValue × Nat)), (specFirstOccurrences before xs).Sublist xs := by
  induction xs with
  | nil => intro before; exact List.Sublist.refl _
  | cons x xs ih =>
    intro before
    rw [specFirstOccurrences]
    split
    · exact List.Sublist.cons x (ih _)
    · exact List.Sublist.cons₂ x (ih _)

theorem specFirstOccurrences_pairwise (xs : List (JSValue × Nat)) :
    ∀ (before : List (JSValue × Nat)),
    (∀ b ∈ before, ∀ u ∈ specFirstOccurrences before xs, sameValueZero b u = false) ∧
    (specFirstOccurrences before xs).Pairwise (fun a b => sameValueZero a b = false) := by
  induction xs with
  | nil =>
    intro before
    exact ⟨fun _ _ u hu => absurd hu (by simp [specFirstOccurrences]), List.Pairwise.nil⟩
  | cons x xs ih =>
    intro before
    obtain ⟨h1, h2⟩ := ih (before ++ [x])
    rw [specFirstOccurrences]
    by_cases hb : before.any (fun b => sameValueZero b x) = true
    · rw [if_pos hb, List.nil_append]
      exact ⟨fun b hb2 u hu => h1 b (List.mem_append_left _ hb2) u hu, h2⟩
    · rw [if_neg hb]
      have hx : ∀ b ∈ before, sameValueZero b x = false := by
        intro b hb2
        rw [Bool.eq_false_iff]
        exact fun e => hb (List.any_eq_true.mpr ⟨b, hb2, e⟩)
      constructor
      · intro b hb2 u hu
        rcases List.mem_append.mp hu with hu2 | hu2
        · rw [List.mem_singleton.mp hu2]
          exact hx b hb2
        · exact h1 b (List.mem_append_left _ hb2) u hu2
      · rw [List.singleton_append, List.pairwise_cons]
        exact ⟨fun u hu =>
          h1 x (List.mem_append_right _ (List.mem_singleton.mpr rfl)) u hu, h2⟩

theorem specFirstOccurrences_represents (xs : List (JSValue × Nat)) :
    ∀ (before : List (JSValue × Nat)), ∀ t ∈ xs,
    (∃ b ∈ before, sameValueZero b t = true) ∨
    (∃ u ∈ specFirstOccurrences before xs, sameValueZero u t = true) := by
  induction xs with
  | nil => intro before t ht; exact absurd ht (by simp)
  | cons x xs ih =>
    intro before t ht
    rw [specFirstOccurrences]
    by_cases hb : before.any (fun b => sameValueZero b x) = true
    · rw [if_pos hb, List.nil_append]
      obtain ⟨b0, hb0, hb0x⟩ := List.any_eq_true.mp hb
      rcases List.mem_cons.mp ht with rfl | ht2
      · exact Or.inl ⟨b0, hb0, hb0x⟩
      · rcases ih (before ++ [x]) t ht2 with ⟨b, hb1, hb2⟩ | hr
        · rcases List.mem_append.mp hb1 with hb3 | hb3
          · exact Or.inl ⟨b, hb3, hb2⟩
          · rw [List.mem_singleton.mp hb3] at hb2
            exact Or.inl ⟨b0, hb0, sameValueZero_trans b0 x t hb0x hb2⟩
        · exact Or.inr hr
    · rw [if_neg hb]
      rcases List.mem_cons.mp ht with rfl | ht2
      · exact Or.inr ⟨t, List.mem_append_left _ (List.mem_singleton.mpr rfl),
          sameValueZero_refl t⟩
      · rcases ih (before ++ [x]) t ht2 with ⟨b, hb1, hb2⟩ | ⟨u, hu1, hu2⟩
        · rcases List.mem_append.mp hb1 with hb3 | hb3
          · exact Or.inl ⟨b, hb3, hb2⟩
          · exact Or.inr ⟨b, List.mem_append_left _ hb3, hb2⟩
        · exact Or.inr ⟨u, List.mem_append_right _ hu1, hu2⟩

theorem specFirstOccurrences_of_pairwise (xs : List (JSValue × Nat)) :
    ∀ (before : List (JSValue × Nat)),
    (∀ b ∈ before, ∀ t ∈ xs, sameValueZero b t = false) →
    xs.Pairwise (fun a b => sameValueZero a b = false) →
    specFirstOccurrences before xs = xs := by
  induction xs with
  | nil => intro before _ _; rfl
  | cons x xs ih =>
    intro before hb hp
    rw [List.pairwise_cons] at hp
    have hx : ¬ before.any (fun b => sameValueZero b x) = true := by
      intro h
      obtain ⟨b, hb1, hb2⟩ := List.any_eq_true.mp h
      rw [hb b hb1 x (List.mem_cons_self _ _)] at hb2
      exact Bool.false_ne_true hb2
    rw [specFirstOccurrences, if_neg hx, ih (before ++ [x]) ?_ hp.2]
    · rfl
    · intro b hb1 t ht
      rcases List.mem_append.mp hb1 with hb2 | hb2
      · exact hb b hb2 t (List.mem_cons_of_mem _ ht)
      · rw [List.mem_singleton.mp hb2]
        exact hp.1 t ht

theorem withRefs_map_fst (refs : Nat → Nat) (xs : List JSValue) :
    ∀ (i : Nat), (withRefs refs i xs).map Prod.fst = xs := by
  induction xs with
  | nil => intro i; rfl
  | cons x xs ih => intro i; rw [withRefs, List.map_cons, ih]

theorem mem_withRefs_self (xs : List JSValue) :
    ∀ (i : Nat), ∀ t ∈ withRefs (fun i => i) i xs, t.1 ∈ xs ∧ i ≤ t.2 := by
  induction xs with
  | nil => intro i t ht; exact absurd ht (by simp [withRefs])
  | cons x xs ih =>
    intro i t ht
    rw [withRefs, List.mem_cons] at ht
    rcases ht with rfl | ht
    · exact ⟨List.mem_cons_self _ _, Nat.le_refl _⟩
    · obtain ⟨h1, h2⟩ := ih (i + 1) t ht
      exact ⟨List.mem_cons_of_mem _ h1, by omega⟩

theorem withRefs_self_pairwise (xs : List JSValue) :
    ∀ (i : Nat), xs.Pairwise (fun a b => isPrimitive a = true → a ≠ b) →
    (withRefs (fun i => i) i xs).Pairwise (fun a b => sameValueZero a b = false) := by
  induction xs with
  | nil => intro i _; exact List.Pairwise.nil
  | cons x xs ih =>
    intro i hp
    rw [List.pairwise_cons] at hp
    rw [withRefs, List.pairwise_cons]
    refine ⟨?_, ih (i + 1) hp.2⟩
    intro t ht
    obtain ⟨h1, h2⟩ := mem_withRefs_self xs (i + 1) t ht
    rw [Bool.eq_false_iff]
    intro e
    cases hx : isPrimitive x with
    | true => exact hp.1 t.1 h1 hx ((sameValueZero_fst (x, i) t hx).mp e)
    | false =>
      have h3 := ((sameValueZero_ref (x, i) t hx).mp e).2
      simp only at h3
      omega

theorem kept_values_distinct (kept : List (JSValue × Nat))
    (h : kept.Pairwise (fun a b => sameValueZero a b = false)) :
    (kept.map Prod.fst).Pairwise (fun a b => isPrimitive a = true → a ≠ b) := by
  rw [List.pairwise_map]
  refine List.Pairwise.imp ?_ h
  intro a b hab ha e
  rw [(sameValueZero_fst a b ha).mpr e] at hab
  exact Bool.noConfusion hab

theorem pipeline_unique (fallback dflt final : JSValue) (refs : Nat → Nat) :
    pipeline { fallback := fallback, default := dflt, unique := true, refs := refs } final
      = .ok (uniqueStageRefs refs true final) := by
  cases final <;> rfl

/-- C10 (amended).  Unique: when the result without `unique` is a collection,
`traverse` with `unique: true` returns, whichever positions of that collection
hold the same array or object (`refs`), the collection of its first occurrences:
the elements that no earlier element is the same as, where two elements are the
same when they are equal primitive values or one and the same array or object.
No two elements of the result are the same; every element of the pre-transform
collection is the same as an element of the result; the result is a subsequence
of the pre-transform collection; it contains exactly the values of the
pre-transform collection (the same array or object being one value); and when
all values are primitive no two elements of the result are equal. -/
theorem unique_stage (pattern input fallback dflt : JSValue) (refs : Nat → Nat)
    (xs : List JSValue)
    (h : traverse pattern input { fallback := fallback, default := dflt }
      = .ok (.arr xs)) :
    ∃ kept, kept = specFirstOccurrences [] (withRefs refs 0 xs) ∧
      traverse pattern input
          { fallback := fallback, default := dflt, unique := true, refs := refs }
        = .ok (.arr (kept.map Prod.fst)) ∧
      kept.Pairwise (fun a b => sameValueZero a b = false) ∧
      (∀ t ∈ withRefs refs 0 xs, ∃ u ∈ kept, sameValueZero u t = true) ∧
      kept.Sublist (withRefs refs 0 xs) ∧
      (kept.map Prod.fst).Sublist xs ∧
      ((∀ a ∈ withRefs refs 0 xs, ∀ b ∈ withRefs refs 0 xs,
          sameValueZero a b = true → a.1 = b.1) →
        ∀ v, v ∈ kept.map Prod.fst ↔ v ∈ xs) ∧
      ((∀ x ∈ xs, isPrimitive x = true) → (kept.map Prod.fst).Nodup) := by
  have hsub := specFirstOccurrences_sublist (withRefs refs 0 xs) []
  have hsubv : ((specFirstOccurrences [] (withRefs refs 0 xs)).map Prod.fst).Sublist xs := by
    have := hsub.map Prod.fst
    rwa [withRefs_map_fst] at this
  have hrep : ∀ t ∈ withRefs refs 0 xs,
      ∃ u ∈ specFirstOccurrences [] (withRefs refs 0 xs), sameValueZero u t = true := by
    intro t ht
    rcases specFirstOccurrences_represents (withRefs refs 0 xs) [] t ht with
      ⟨b, hb, _⟩ | hr
    · exact absurd hb (by simp)
    · exact hr
  have hpw := (specFirstOccurrences_pairwise (withRefs refs 0 xs) []).2
  refine ⟨_, rfl, ?_, hpw, hrep, hsub, hsubv, ?_, ?_⟩
  · cases hp : patternKeys pattern with
    | error e => simp [traverse, hp] at h
    | ok keys =>
      rw [traverse_plain pattern input fallback dflt keys hp] at h
      simp only [traverse, hp, pipeline_unique]
      rw [Except.ok.inj h, uniqueStageRefs, setAddAll_nil_eq_spec]
  · intro hcons v
    constructor
    · exact fun hv => hsubv.subset hv
    · intro hv
      rw [← withRefs_map_fst refs xs 0, List.mem_map] at hv
      obtain ⟨t, ht, rfl⟩ := hv
      obtain ⟨u, hu, hut⟩ := hrep t ht
      exact List.mem_map.mpr ⟨u, hu, hcons u (hsub.subset hu) t ht hut⟩
  · intro hprim
    rw [List.Nodup, List.pairwise_map]
    refine List.Pairwise.imp_of_mem ?_ hpw
    intro a b ha _ hab e
    have hpa : isPrimitive a.1 = true :=
      hprim a.1 (hsubv.subset (List.mem_map.mpr ⟨a, ha, rfl⟩))
    rw [(sameValueZero_fst a b hpa).mpr e] at hab
    exact Bool.noConfusion hab

/-- C10, witness: the patterns `['a','b','a']` on `{a:{x:1}, b:2}`, where the
first and the third match are the same object: the matches `{x:1}, 2, {x:1}`
become `[{x:1}, 2]` with `unique: true`.  Scenario 6, the same patterns on
`{a:1, b:2}`, gives `[1,2]`. -/
theorem unique_stage_witness :
    traverse (.arr [.str "a", .str "b", .str "a"])
        (.obj [("a", .obj [("x", .num 1)]), ("b", .num 2)])
        { fallback := .null, default := .null }
      = .ok (.arr [.obj [("x", .num 1)], .num 2, .obj [("x", .num 1)]]) ∧
    traverse (.arr [.str "a", .str "b", .str "a"])
        (.obj [("a", .obj [("x", .num 1)]), ("b", .num 2)])
        { unique := true, refs := fun i => i % 2 }
      = .ok (.arr [.obj [("x", .num 1)], .num 2]) ∧
    traverse (.arr [.str "a", .str "b", .str "a"]) (.obj [("a", .num 1), ("b", .num 2)])
      { unique := true } = .ok (.arr [.num 1, .num 2]) ∧
    ∃ kept, kept = specFirstOccurrences []
        (withRefs (fun i => i % 2) 0 [.obj [("x", .num 1)], .num 2, .obj [("x", .num 1)]]) ∧
      traverse (.arr [.str "a", .str "b", .str "a"])
          (.obj [("a", .obj [("x", .num 1)]), ("b", .num 2)])
          { fallback := .null, default := .null, unique := true, refs := fun i => i % 2 }
        = .ok (.arr (kept.map Prod.fst)) ∧
      kept.Pairwise (fun a b => sameValueZero a b = false) ∧
      (∀ t ∈ withRefs (fun i => i % 2) 0
          [.obj [("x", .num 1)], .num 2, .obj [("x", .num 1)]],
        ∃ u ∈ kept, sameValueZero u t = true) ∧
      kept.Sublist (withRefs (fun i => i % 2) 0
        [.obj [("x", .num 1)], .num 2, .obj [("x", .num 1)]]) ∧
      (kept.map Prod.fst).Sublist [.obj [("x", .num 1)], .num 2, .obj [("x", .num 1)]] ∧
      ((∀ a ∈ withRefs (fun i => i % 2) 0
            [.obj [("x", .num 1)], .num 2, .obj [("x", .num 1)]],
          ∀ b ∈ withRefs (fun i => i % 2) 0
            [.obj [("x", .num 1)], .num 2, .obj [("x", .num 1)]],
          sameValueZero a b = true → a.1 = b.1) →
        ∀ v, v ∈ kept.map Prod.fst
          ↔ v ∈ [.obj [("x", .num 1)], .num 2, .obj [("x", .num 1)]]) ∧
      ((∀ x ∈ [JSValue.obj [("x", .num 1)], .num 2, .obj [("x", .num 1)]],
          isPrimitive x = true) → (kept.map Prod.fst).Nodup) :=
  ⟨by decide, by decide, by decide,
    unique_stage (.arr [.str "a", .str "b", .str "a"])
      (.obj [("a", .obj [("x", .num 1)]), ("b", .num 2)]) .null .null (fun i => i % 2)
      [.obj [("x", .num 1)], .num 2, .obj [("x", .num 1)]] (by decide)⟩

/-- C10, counterexample: the patterns `['a','b']` on `{a:{x:1}, b:{x:1}}` match
two objects with equal contents.  They are not the same object, so
`unique: true` keeps both: the result `[{x:1},{x:1}]` has two equal elements. -/
theorem unique_keeps_equal_objects :
    traverse (.arr [.str "a", .str "b"])
        (.obj [("a", .obj [("x", .num 1)]), ("b", .obj [("x", .num 1)])])
        { unique := true }
      = .ok (.arr [.obj [("x", .num 1)], .obj [("x", .num 1)]]) ∧
    ¬ [JSValue.obj [("x", .num 1)], .obj [("x", .num 1)]].Nodup := by
  decide

/-! ## The stages of the pipeline -/

theorem final_of_plain (pattern input fallback dflt v : JSValue)
    (h : traverse pattern input { fallback := fallback, default := dflt } = .ok v) :
    ∃ keys, patternKeys pattern = .ok keys ∧
      finalOf (collectTasks keys input fallback) dflt = v := by
  cases hp : patternKeys pattern with
  | error e => simp [traverse, hp] at h
  | ok keys =>
    rw [traverse_plain pattern input fallback dflt keys hp] at h
    exact ⟨keys, rfl, Except.ok.inj h⟩

theorem traverse_of_plain (pattern input v : JSValue) (options : Options)
    (h : traverse pattern input
      { fallback := options.fallback, default := options.default } = .ok v) :
    traverse pattern input options = pipeline options v := by
  obtain ⟨keys, hk, hf⟩ := final_of_plain pattern input _ _ v h
  simp only [traverse, hk, hf]

theorem stages_off (refs : Nat → Nat) (final : JSValue) :
    uniqueStageRefs refs false (flattenStage false (groupStage .null final)) = final := by
  cases final <;> rfl

theorem pipeline_limit (fallback dflt limit final : JSValue) :
    pipeline { fallback := fallback, default := dflt, limit := limit } final
      = limitStage (limitNum limit) final := by
  simp only [pipeline, stages_off]
  cases limitStage (limitNum limit) final <;> rfl

theorem limitStage_arr (N : Nat) (xs : List JSValue) (hN : 1 ≤ N) :
    limitStage (some N) (.arr xs) = .ok (.arr (xs.take (min N xs.length))) := by
  obtain ⟨m, rfl⟩ : ∃ m, N = m + 1 := ⟨N - 1, by omega⟩
  simp only [limitStage]
  by_cases hl : xs.length > m + 1
  · rw [if_pos hl, Nat.min_eq_left (by omega)]
  · rw [if_neg hl, Nat.min_eq_right (by omega), List.take_length]

/-- C11 (amended).  Limit: for every numeric limit, coerced to the non-negative
integer `N`, and every collection result of length `L`, `traverse` returns the
first `min(N, L)` elements of the collection, in their original order, when
`N ≥ 1`, and the whole collection when `N = 0`. -/
theorem limit_stage (pattern input fallback dflt : JSValue) (n : Int)
    (xs : List JSValue)
    (h : traverse pattern input { fallback := fallback, default := dflt }
      = .ok (.arr xs)) :
    limitNum (.num n) = some (n % 4294967296).toNat ∧
    (1 ≤ (n % 4294967296).toNat →
      traverse pattern input { fallback := fallback, default := dflt, limit := .num n }
        = .ok (.arr (xs.take (min (n % 4294967296).toNat xs.length)))) ∧
    ((n % 4294967296).toNat = 0 →
      traverse pattern input { fallback := fallback, default := dflt, limit := .num n }
        = .ok (.arr xs)) := by
  have ht := traverse_of_plain pattern input (.arr xs)
    { fallback := fallback, default := dflt, limit := .num n } h
  rw [ht, pipeline_limit]
  refine ⟨rfl, fun h1 => limitStage_arr _ xs h1, fun h0 => ?_⟩
  simp only [limitNum, h0]
  rfl

/-- C11, witness: `limit: 2` on the three matches of `'a>b'`. -/
theorem limit_stage_witness :
    traverse (.str "a>b") scenarioTree { fallback := .null, default := .null }
      = .ok (.arr [.obj [("c", .num 1)], .obj [("c", .num 2)], .obj [("c", .num 3)]]) ∧
    traverse (.str "a>b") scenarioTree
      { fallback := .null, default := .null, limit := .num 2 }
      = .ok (.arr [.obj [("c", .num 1)], .obj [("c", .num 2)]]) :=
  ⟨by decide,
    (limit_stage (.str "a>b") scenarioTree .null .null 2
      [.obj [("c", .num 1)], .obj [("c", .num 2)], .obj [("c", .num 3)]]
      (by decide)).2.1 (by decide)⟩

/-- C11, counterexample: the limit `0` returns all three elements, not none. -/
theorem limit_zero_keeps_everything :
    limitNum (.num 0) = some 0 ∧
    traverse (.str "a") (.obj [("a", .arr [.num 1, .num 2, .num 3])]) { limit := .num 0 }
      = .ok (.arr [.num 1, .num 2, .num 3]) ∧
    traverse (.str "a") (.obj [("a", .arr [.num 1, .num 2, .num 3])]) { limit := .num 0 }
      ≠ .ok (.arr []) := by
  decide

theorem pipeline_group (fallback dflt group final : JSValue) :
    pipeline { fallback := fallback, default := dflt, group := group } final
      = .ok (groupStage group final) := by
  have e : ∀ v, uniqueStage false (flattenStage false v) = v := by
    intro v
    cases v <;> rfl
  simp only [pipeline, e]
  cases groupStage group final <;> rfl

theorem groupStage_not_collection (group final : JSValue) (h : isArray final = false) :
    groupStage group final = final := by
  cases final with
  | arr _ => exact absurd h (by simp [isArray])
  | undefined => cases group <;> rfl
  | null => cases group <;> rfl
  | bool _ => cases group <;> rfl
  | num _ => cases group <;> rfl
  | str _ => cases group <;> rfl
  | obj _ => cases group <;> rfl

/-- C12 (amended).  Group: for every positive integer `g` and every collection
result of length `L`, `traverse` returns the `g`-th element (1-indexed) of the
collection when `g ≤ L` and that element is neither `null` nor `undefined`, and
the collection unchanged when `g > L` or that element is `null` or `undefined`;
a result that is not a collection is never changed by group. -/
theorem group_stage (pattern input fallback dflt : JSValue) (g : Int) (hg : 0 < g)
    (xs : List JSValue)
    (h : traverse pattern input { fallback := fallback, default := dflt }
      = .ok (.arr xs)) :
    (∀ v, xs.get? (g - 1).toNat = some v → isNullish v = false →
      traverse pattern input { fallback := fallback, default := dflt, group := .num g }
        = .ok v) ∧
    (∀ v, xs.get? (g - 1).toNat = some v → isNullish v = true →
      traverse pattern input { fallback := fallback, default := dflt, group := .num g }
        = .ok (.arr xs)) ∧
    ((xs.length : Int) < g →
      traverse pattern input { fallback := fallback, default := dflt, group := .num g }
        = .ok (.arr xs)) ∧
    (∀ group final, isArray final = false → groupStage group final = final) := by
  have ht := traverse_of_plain pattern input (.arr xs)
    { fallback := fallback, default := dflt, group := .num g } h
  rw [ht, pipeline_group]
  refine ⟨fun v hv hn => ?_, fun v hv hn => ?_, fun hl => ?_, groupStage_not_collection⟩
  · simp only [groupStage, hg, if_true, hv, hn]
    rfl
  · simp only [groupStage, hg, if_true, hv, hn]
  · have hnone : xs.get? (g - 1).toNat = none := by
      rw [List.get?_eq_none]
      omega
    simp only [groupStage, hg, if_true, hnone]

/-- C12, witness: `group: 2` on the three matches of `'a>b'` gives `{c:2}`. -/
theorem group_stage_witness :
    (0 : Int) < 2 ∧
    traverse (.str "a>b") scenarioTree
      { fallback := .null, default := .null, group := .num 2 }
      = .ok (.obj [("c", .num 2)]) :=
  ⟨by decide,
    (group_stage (.str "a>b") scenarioTree .null .null 2 (by decide)
      [.obj [("c", .num 1)], .obj [("c", .num 2)], .obj [("c", .num 3)]]
      (by decide)).1 _ (by decide) (by decide)⟩

/-- C12, counterexample: the first of the two matches `null, 1` of `'a'` in
`{a:[null,1]}` is `null`; `group: 1` returns the whole collection, not its first
element. -/
theorem group_keeps_collection_on_null :
    traverse (.str "a") (.obj [("a", .arr [.null, .num 1])]) {}
      = .ok (.arr [.null, .num 1]) ∧
    traverse (.str "a") (.obj [("a", .arr [.null, .num 1])]) { group := .num 1 }
      = .ok (.arr [.null, .num 1]) ∧
    traverse (.str "a") (.obj [("a", .arr [.null, .num 1])]) { group := .num 1 }
      ≠ .ok .null := by
  decide

/-- C13.  Idempotence of unique: applying the unique stage to the output of the
unique stage returns that same output, for a collection and for any other
value.  This holds for a collection in which every position holds a reference
of its own, and for every collection of values given with their references: the
elements of the `Set` built from the elements of a `Set` are those elements. -/
theorem unique_idempotent (final : JSValue) :
    uniqueStage true (uniqueStage true final) = uniqueStage true final ∧
    (∀ txs : List (JSValue × Nat),
      setAddAll [] (setAddAll [] txs) = setAddAll [] txs) := by
  have hgen : ∀ txs : List (JSValue × Nat),
      setAddAll [] (setAddAll [] txs) = setAddAll [] txs := by
    intro txs
    rw [setAddAll_nil_eq_spec txs, setAddAll_nil_eq_spec]
    exact specFirstOccurrences_of_pairwise _ [] (fun b hb => absurd hb (by simp))
      (specFirstOccurrences_pairwise txs []).2
  refine ⟨?_, hgen⟩
  cases final with
  | arr xs =>
    simp only [uniqueStage, uniqueStageRefs]
    rw [setAddAll_nil_eq_spec (withRefs (fun i => i) 0 xs), setAddAll_nil_eq_spec,
      specFirstOccurrences_of_pairwise _ [] (fun b hb => absurd hb (by simp))
        (withRefs_self_pairwise _ 0
          (kept_values_distinct _ (specFirstOccurrences_pairwise _ []).2)),
      withRefs_map_fst]
  | undefined => exact rfl
  | null => exact rfl
  | bool _ => exact rfl
  | num _ => exact rfl
  | str _ => exact rfl
  | obj _ => exact rfl

mutual
theorem flatDeep_flat : ∀ (xs : List JSValue), ∀ x ∈ flatDeep xs, isArray x = false
  | [], x, hx => absurd hx (by simp [flatDeep])
  | v :: vs, x, hx => by
    rw [flatDeep, List.mem_append] at hx
    rcases hx with h | h
    · exact flatDeepItem_flat v x h
    · exact flatDeep_flat vs x h
theorem flatDeepItem_flat : ∀ (v : JSValue), ∀ x ∈ flatDeepItem v, isArray x = false
  | .arr ys, x, hx => by
    rw [flatDeepItem] at hx
    exact flatDeep_flat ys x hx
  | .undefined, x, hx => by
    rw [List.mem_singleton.mp hx]
    rfl
  | .null, x, hx => by
    rw [List.mem_singleton.mp hx]
    rfl
  | .bool _, x, hx => by
    rw [List.mem_singleton.mp hx]
    rfl
  | .num _, x, hx => by
    rw [List.mem_singleton.mp hx]
    rfl
  | .str _, x, hx => by
    rw [List.mem_singleton.mp hx]
    rfl
  | .obj _, x, hx => by
    rw [List.mem_singleton.mp hx]
    rfl
end

theorem flatDeep_of_flat (xs : List JSValue) (h : ∀ x ∈ xs, isArray x = false) :
    flatDeep xs = xs := by
  induction xs with
  | nil => rfl
  | cons v vs ih =>
    have hv := h v (List.mem_cons_self _ _)
    have hitem : flatDeepItem v = [v] := by
      cases v with
      | arr _ => exact absurd hv (by simp [isArray])
      | undefined => rfl
      | null => rfl
      | bool _ => rfl
      | num _ => rfl
      | str _ => rfl
      | obj _ => rfl
    rw [flatDeep, hitem, ih (fun x hx => h x (List.mem_cons_of_mem _ hx))]
    rfl

/-- C14.  Idempotence of flatten: on a collection none of whose elements is
itself a collection the flatten stage returns the same sequence; consequently,
for every collection, flattening the output of the flatten stage changes
nothing. -/
theorem flatten_idempotent (xs : List JSValue) :
    ((∀ x ∈ xs, isArray x = false) → flattenStage true (.arr xs) = .arr xs) ∧
    (∃ ys, flattenStage true (.arr xs) = .arr ys ∧ ∀ y ∈ ys, isArray y = false) ∧
    flattenStage true (flattenStage true (.arr xs)) = flattenStage true (.arr xs) := by
  refine ⟨fun h => ?_, ⟨flatDeep xs, rfl, flatDeep_flat xs⟩, ?_⟩
  · simp only [flattenStage, flatDeep_of_flat xs h]
  · simp only [flattenStage, flatDeep_of_flat (flatDeep xs) (flatDeep_flat xs)]

/-- C14, witness: the flat collection `[1, "a", {c:1}]` is returned as it is. -/
theorem flatten_idempotent_witness :
    (∀ x ∈ [JSValue.num 1, .str "a", .obj [("c", .num 1)]], isArray x = false) ∧
    flattenStage true (.arr [.num 1, .str "a", .obj [("c", .num 1)]])
      = .arr [.num 1, .str "a", .obj [("c", .num 1)]] ∧
    flattenStage true (.arr [.num 1, .arr [.num 2, .arr [.num 3]]])
      = .arr [.num 1, .num 2, .num 3] :=
  ⟨by decide,
    (flatten_idempotent [.num 1, .str "a", .obj [("c", .num 1)]]).1 (by decide),
    by decide⟩

/-- C17 (code at the failing inputs).  With `limit: 1` and no match the result
entering the limit stage is the default `null`, and reading its `length` raises
a `TypeError`; a single string match is cut to its first characters. -/
theorem limit_on_non_collection :
    traverse (.str "missing") (.obj [("a", .num 42)]) {} = .ok .null ∧
    traverse (.str "missing") (.obj [("a", .num 42)]) { limit := .num 1 }
      = .error .typeError ∧
    traverse (.str "a") (.obj [("a", .str "hello")]) {} = .ok (.str "hello") ∧
    traverse (.str "a") (.obj [("a", .str "hello")]) { limit := .num 2 }
      = .ok (.str "he") ∧
    traverse (.str "a") (.obj [("a", .num 42)]) { limit := .num 1 } = .ok (.num 42) := by
  decide

theorem take_min_length (N : Nat) (l : List JSValue) :
    l.take (min N l.length) = l.take N := by
  by_cases hl : N ≤ l.length
  · rw [Nat.min_eq_left hl]
  · rw [Nat.min_eq_right (by omega), List.take_length, List.take_of_length_le (by omega)]

theorem pipeline_flatten_unique_limit (fallback dflt limit : JSValue)
    (refs : Nat → Nat) (xs : List JSValue) :
    pipeline
        { fallback := fallback, default := dflt, flatten := true, unique := true,
          limit := limit, refs := refs } (.arr xs)
      = limitStage (limitNum limit)
          (.arr ((setAddAll [] (withRefs refs 0 (flatDeep xs))).map Prod.fst)) := by
  have e : uniqueStageRefs refs true (flattenStage true (groupStage .null (.arr xs)))
      = .arr ((setAddAll [] (withRefs refs 0 (flatDeep xs))).map Prod.fst) := rfl
  simp only [pipeline, e]
  cases limitStage (limitNum limit)
    (.arr ((setAddAll [] (withRefs refs 0 (flatDeep xs))).map Prod.fst)) <;> rfl

/-- C19.  Fixed stage order: when the matches form a collection and `flatten`,
`unique` and a limit that coerces to `N ≥ 1` are requested (and `group`, `find`
and `filter` are not), `traverse` returns the first `N` elements of the
de-duplicated, deep-flattened matches: flatten is applied before unique and
unique before limit.  The de-duplicated matches are the first occurrences among
the deep-flattened matches, whichever positions of these hold the same array or
object (`refs`). -/
theorem stage_order (pattern input fallback dflt : JSValue) (refs : Nat → Nat)
    (n : Int) (N : Nat) (xs : List JSValue)
    (h : traverse pattern input { fallback := fallback, default := dflt }
      = .ok (.arr xs))
    (hN : limitNum (.num n) = some N) (h1 : 1 ≤ N) :
    traverse pattern input
        { fallback := fallback, default := dflt, flatten := true, unique := true,
          limit := .num n, refs := refs }
      = .ok (.arr (((specFirstOccurrences [] (withRefs refs 0 (flatDeep xs))).map
          Prod.fst).take N)) := by
  have ht := traverse_of_plain pattern input (.arr xs)
    { fallback := fallback, default := dflt, flatten := true, unique := true,
      limit := .num n, refs := refs } h
  rw [ht, pipeline_flatten_unique_limit, hN, limitStage_arr N _ h1, take_min_length,
    setAddAll_nil_eq_spec]

/-- C19, witness: the patterns `['a','a','b']` on `{a:{x:1}, b:{y:2}}` match the
object `{x:1}` twice and then `{y:2}`; with `flatten`, `unique` and `limit: 2`
the result is `[{x:1},{y:2}]`.  The two matches `[1,2]` and `[2,3]` of `'a'` in
`{a:[[1,2],[2,3]]}` give `[1,2]`. -/
theorem stage_order_witness :
    traverse (.arr [.str "a", .str "a", .str "b"])
        (.obj [("a", .obj [("x", .num 1)]), ("b", .obj [("y", .num 2)])])
        { fallback := .null, default := .null }
      = .ok (.arr [.obj [("x", .num 1)], .obj [("x", .num 1)], .obj [("y", .num 2)]]) ∧
    limitNum (.num 2) = some 2 ∧
    traverse (.arr [.str "a", .str "a", .str "b"])
        (.obj [("a", .obj [("x", .num 1)]), ("b", .obj [("y", .num 2)])])
        { fallback := .null, default := .null, flatten := true, unique := true,
          limit := .num 2, refs := fun i => i - 1 }
      = .ok (.arr [.obj [("x", .num 1)], .obj [("y", .num 2)]]) ∧
    traverse (.str "a") (.obj [("a", .arr [.arr [.num 1, .num 2], .arr [.num 2, .num 3]])])
      { flatten := true, unique := true, limit := .num 2 }
      = .ok (.arr [.num 1, .num 2]) :=
  ⟨by decide, by decide,
    stage_order (.arr [.str "a", .str "a", .str "b"])
      (.obj [("a", .obj [("x", .num 1)]), ("b", .obj [("y", .num 2)])]) .null .null
      (fun i => i - 1) 2 2
      [.obj [("x", .num 1)], .obj [("x", .num 1)], .obj [("y", .num 2)]]
      (by decide) (by decide) (by decide),
    by decide⟩


/-! ## The literal step on a sequence -/

theorem truthy_eq_not_falseLike (v : JSValue) : truthy v = !specFalseLike v := by
  cases v with
  | undefined => rfl
  | null => rfl
  | bool b => cases b <;> rfl
  | num n =>
    by_cases hn : n = 0
    · rw [hn]; rfl
    · have h1 : truthy (.num n) = true := by simp [truthy, hn]
      have h2 : specFalseLike (.num n) = false := by
        unfold specFalseLike
        split <;> simp_all
      rw [h1, h2]; rfl
  | str s =>
    obtain ⟨cs⟩ := s
    cases cs with
    | nil => rfl
    | cons c cs =>
      have h1 : truthy (.str ⟨c :: cs⟩) = true := by simp [truthy]
      have h2 : specFalseLike (.str ⟨c :: cs⟩) = false := by
        simp only [specFalseLike, beq_eq_false_iff_ne, ne_eq]
        intro h
        exact absurd (congrArg String.data h) (by simp)
      rw [h1, h2]; rfl
  | arr _ => rfl
  | obj _ => rfl

theorem literalStep_eq_spec (s : List JSValue) (k : String) :
    flat1 ((s.map (fun item => getProp item k)).filter truthy) = specSequenceStep s k := by
  unfold flat1 specSequenceStep
  induction s with
  | nil => rfl
  | cons item items ih =>
    simp only [List.map_cons, List.filter_cons, List.filterMap_cons,
      truthy_eq_not_falseLike (getProp item k)]
    cases hf : specFalseLike (getProp item k) with
    | true => simpa using ih
    | false =>
      simp only [Bool.not_false, if_true, Bool.false_eq_true, if_false, List.flatMap_cons, ih]
      congr 1

/-- C18.  Literal step on a sequence: for every sequence `s`, literal key `k`
(any string but the wildcard marker) and remaining steps `r`, resolving
`[k, ...r]` against `s` is resolving `r` against the collection obtained by
looking `k` up in every element of `s` in order, dropping every lookup that is
`undefined`, `null`, `false`, `0` or the empty string, and flattening the
remaining values by one level. -/
theorem literal_step_on_sequence (s : List JSValue) (k : String) (r : List JSValue)
    (hk : k ≠ "...") :
    deepSearch (.arr s) (.arr (.str k :: r))
      = deepSearch (.arr (specSequenceStep s k)) (.arr r) := by
  have hw : isWildcard (.str k) = false := by simp [isWildcard, hk]
  simp only [deepSearch, parseKeyPath_arr]
  rw [deepSearchKeys_cons, hw]
  simp only [isNullish, Bool.false_eq_true, if_false]
  rw [show toPropertyKey (.str k) = k from rfl]
  simp only [literalStep, literalStep_eq_spec]

/-- C18, witness: the key `c` and the remaining step `d` on the sequence
`[{c:{d:1}}, {c:0}, {x:2}, {c:[{d:3},{d:4}]}]`. -/
theorem literal_step_on_sequence_witness :
    "c" ≠ "..." ∧
    specSequenceStep [.obj [("c", .obj [("d", .num 1)])], .obj [("c", .num 0)],
        .obj [("x", .num 2)], .obj [("c", .arr [.obj [("d", .num 3)], .obj [("d", .num 4)]])]]
      "c" = [.obj [("d", .num 1)], .obj [("d", .num 3)], .obj [("d", .num 4)]] ∧
    deepSearch (.arr [.obj [("c", .obj [("d", .num 1)])], .obj [("c", .num 0)],
        .obj [("x", .num 2)], .obj [("c", .arr [.obj [("d", .num 3)], .obj [("d", .num 4)]])]])
      (.arr [.str "c", .str "d"]) = .arr [.num 1, .num 3, .num 4] ∧
    deepSearch (.arr [.obj [("c", .obj [("d", .num 1)])], .obj [("c", .num 0)],
        .obj [("x", .num 2)], .obj [("c", .arr [.obj [("d", .num 3)], .obj [("d", .num 4)]])]])
      (.arr [.str "c", .str "d"])
      = deepSearch (.arr (specSequenceStep [.obj [("c", .obj [("d", .num 1)])],
          .obj [("c", .num 0)], .obj [("x", .num 2)],
          .obj [("c", .arr [.obj [("d", .num 3)], .obj [("d", .num 4)]])]] "c"))
        (.arr [.str "d"]) :=
  ⟨by decide, by decide, by decide,
    literal_step_on_sequence _ "c" [.str "d"] (by decide)⟩

/-! ## Separator priority -/

theorem joinChars_cons_char (sep c : Char) (p : List Char) (rest : List String) :
    joinChars sep (String.mk (c :: p) :: rest) = c :: joinChars sep (String.mk p :: rest) := by
  cases rest <;> rfl

theorem joinChars_splitChars (sep : Char) (cs : List Char) :
    joinChars sep ((splitChars sep cs).map String.mk) = cs := by
  induction cs with
  | nil => rfl
  | cons c cs ih =>
    rcases hs : splitChars sep cs with _ | ⟨p, ps⟩
    · exact absurd hs (splitChars_ne_nil sep cs)
    · rw [hs] at ih
      by_cases hc : c = sep
      · simp only [splitChars, hc, if_true, hs, List.map_cons, joinChars]
        rw [List.map_cons] at ih
        rw [ih]
        rfl
      · simp only [splitChars, hc, if_false, hs, List.map_cons]
        rw [joinChars_cons_char]
        rw [List.map_cons] at ih
        rw [ih]

theorem splitChars_no_sep_inside (sep : Char) (cs : List Char) :
    ∀ piece ∈ splitChars sep cs, sep ∉ piece := by
  induction cs with
  | nil =>
    intro piece hp
    simp only [splitChars, List.mem_singleton] at hp
    rw [hp]
    simp
  | cons c cs ih =>
    intro piece hp
    rcases hs : splitChars sep cs with _ | ⟨p, ps⟩
    · exact absurd hs (splitChars_ne_nil sep cs)
    · rw [hs] at ih
      by_cases hc : c = sep
      · simp only [splitChars, hc, if_true, hs, List.mem_cons] at hp
        rcases hp with rfl | hp
        · simp
        · exact ih piece (List.mem_cons.mpr hp)
      · simp only [splitChars, hc, if_false, hs, List.mem_cons] at hp
        rcases hp with rfl | hp
        · intro hm
          rcases List.mem_cons.mp hm with h1 | h1
          · exact hc h1.symm
          · exact ih p (List.mem_cons_self _ _) h1
        · exact ih piece (List.mem_cons_of_mem _ hp)

theorem find_chosen_separator (s : String) (sp : Char)
    (h : specChosenSeparator s = some sp) :
    isPrefix.find? (fun p => includes s p) = some sp := by
  unfold specChosenSeparator at h
  simp only [isPrefix, List.find?]
  cases h1 : includes s '>' with
  | true => simpa [h1] using h
  | false =>
    cases h2 : includes s '=' with
    | true => simpa [h1, h2] using h
    | false =>
      cases h3 : includes s ':' with
      | true => simpa [h1, h2, h3] using h
      | false => simp [h1, h2, h3] at h

/-- C20.  Separator priority: a path string that contains a reserved separator
is split on exactly one of them, the first of `>`, `=`, `:` that it contains,
wherever the separators stand in the string: the steps are the pieces between
the occurrences of that separator, no step contains it, and joining the steps
with it gives back the original string, so every other separator character
stays inside its step; `"a=b>c"` gives the two steps `"a=b"` and `"c"`. -/
theorem separator_priority (s : String) (sp : Char)
    (h : specChosenSeparator s = some sp) :
    parseKeyPath (.str s) = (split s sp).map .str ∧
    joinKeys sp (split s sp) = s ∧
    (∀ step ∈ split s sp, includes step sp = false) ∧
    parseKeyPath (.str "a=b>c") = [.str "a=b", .str "c"] := by
  refine ⟨?_, ?_, ?_, by decide⟩
  · have hf := find_chosen_separator s sp h
    simp only [parseKeyPath, hf]
  · simp only [joinKeys, split, joinChars_splitChars]
  · intro step hstep
    simp only [split, List.mem_map] at hstep
    obtain ⟨piece, hp, rfl⟩ := hstep
    rw [Bool.eq_false_iff]
    intro hc
    exact splitChars_no_sep_inside sp s.data piece hp ((includes_iff_mem _ sp).mp hc)

/-- C20, witness: `"a:b=c>d=e"` contains all three separators and is split on
`>` alone. -/
theorem separator_priority_witness :
    specChosenSeparator "a:b=c>d=e" = some '>' ∧
    parseKeyPath (.str "a:b=c>d=e") = [.str "a:b=c", .str "d=e"] ∧
    joinKeys '>' (split "a:b=c>d=e" '>') = "a:b=c>d=e" :=
  ⟨by decide, (separator_priority "a:b=c>d=e" '>' (by decide)).1,
    (separator_priority "a:b=c>d=e" '>' (by decide)).2.1⟩


/-! ## The pattern ceiling of `search` -/

/-- C15 (code at the failing input).  For a text input and a list of patterns,
the checks at the head of `search` fail exactly when more than 2048 patterns are
supplied, before any pattern is matched; the failure is the `ReferenceError`
raised while the message of the pattern-limit error is built (`maxPattern` is
not defined), not a `ThinkError` with code `PATTERN_LIMIT`. -/
theorem search_pattern_ceiling :
    (∀ (ps : List JSValue) (text : String),
      searchPatternList (.arr ps) (.str text)
        = if 2048 < ps.length then .error (.referenceError "maxPattern") else .ok ps) ∧
    searchPatternList (.arr (List.replicate 2049 (.str "a"))) (.str "text")
      = .error (.referenceError "maxPattern") ∧
    searchPatternList (.arr (List.replicate 2049 (.str "a"))) (.str "text")
      ≠ .error (.thinkError "PATTERN_LIMIT") ∧
    searchPatternList (.arr (List.replicate 2048 (.str "a"))) (.str "text")
      = .ok (List.replicate 2048 (.str "a")) := by
  have hgen : ∀ (ps : List JSValue) (text : String),
      searchPatternList (.arr ps) (.str text)
        = if 2048 < ps.length then .error (.referenceError "maxPattern") else .ok ps := by
    intro ps text
    have h5 : (0x10000 >>> 5 : Nat) = 2048 := by decide
    simp only [searchPatternList, isNullish, patternList, h5, Bool.false_eq_true, if_false]
  refine ⟨hgen, ?_, ?_, ?_⟩
  · rw [hgen, List.length_replicate, if_pos (by decide)]
  · rw [hgen, List.length_replicate, if_pos (by decide)]
    intro h
    cases h
  · rw [hgen, List.length_replicate, if_neg (by decide)]

/-! ## Surrogate pairs in `decode` -/

theorem surrogate_units (c : Nat) (hc : c < 0x100000) :
    (((c >>> 10) &&& 0x3FF) ||| 0xD800) = 0xD800 + c / 1024 ∧
    ((c &&& 0x3FF) ||| 0xDC00) = 0xDC00 + c % 1024 := by
  have hand : ∀ x : Nat, x &&& 0x3FF = x % 1024 := by
    intro x
    have h := Nat.and_pow_two_sub_one_eq_mod x 10
    simpa using h
  have hor : ∀ a y : Nat, y < 1024 → y ||| (1024 * a) = 1024 * a + y := by
    intro a y hy
    have h := Nat.mul_add_lt_is_or (i := 10) (b := y) (by simpa using hy) a
    rw [Nat.or_comm]
    simpa using h.symm
  have hshift : c >>> 10 = c / 1024 := by
    rw [Nat.shiftRight_eq_div_pow]
  constructor
  · rw [hshift, hand, show (0xD800 : Nat) = 1024 * 54 from rfl,
      hor 54 _ (Nat.mod_lt _ (by decide))]
    omega
  · rw [hand, show (0xDC00 : Nat) = 1024 * 55 from rfl,
      hor 55 _ (Nat.mod_lt _ (by decide))]

theorem decodeCodePoint_astral (t : DecodeTables) (fatal : Bool) (cp : Nat)
    (hcp : 0xFFFF < cp) (hmax : cp ≤ 0x10FFFF)
    (hnum : t.decodeMapNumeric cp = none)
    (hfatal : fatal = true → cp ∉ t.invalidReferenceCodePoints) :
    decodeCodePoint t fatal cp
      = .ok [0xD800 + (cp - 0x10000) / 1024, 0xDC00 + (cp - 0x10000) % 1024] := by
  have hrange : ((decide (cp ≥ 0xD800) && decide (cp ≤ 0xDFFF)) || decide (cp > 0x10FFFF))
      = false := by
    simp only [Bool.or_eq_false_iff, Bool.and_eq_false_iff, decide_eq_false_iff_not]
    constructor
    · right; omega
    · omega
  have hinv : (fatal && t.invalidReferenceCodePoints.contains cp) = false := by
    cases fatal with
    | false => rfl
    | true =>
      simp only [Bool.true_and]
      rw [Bool.eq_false_iff]
      intro hc
      exact hfatal rfl (by simpa using hc)
  obtain ⟨h1, h2⟩ := surrogate_units (cp - 0x10000) (by omega)
  simp only [decodeCodePoint, hrange, hnum, hinv, Bool.false_eq_true, if_false,
    fromCharCode, List.map_cons, List.map_nil]
  rw [if_pos hcp, h1, h2, Nat.mod_eq_of_lt (by omega), Nat.mod_eq_of_lt (by omega)]

theorem parseInt_of_readDigits (digits : String) (base cp : Nat)
    (h : readDigits base digits.data = some cp) :
    parseInt digits base = cp ∧ (digits.data != []) = true := by
  constructor
  · simp [parseInt, h]
  · cases hd : digits.data with
    | nil =>
      rw [hd] at h
      simp [readDigits] at h
    | cons c cs => rfl

/-- C16 (amended).  Surrogate-pair emission in `decode`: for every numeric
character reference, decimal or hexadecimal, whose code point `cp` satisfies
`0xFFFF < cp ≤ 0x10FFFF` and is not a key of `decodeMapNumeric`, and which, in
fatal mode, ends in a semicolon and is not listed in
`invalidReferenceCodePoints`, the replacement is two UTF-16 code units `hi`
and `lo` with `0xD800 ≤ hi ≤ 0xDBFF`, `0xDC00 ≤ lo ≤ 0xDFFF` and
`0x10000 + (hi - 0xD800) * 0x400 + (lo - 0xDC00) = cp`. -/
theorem surrogate_pair (t : DecodeTables) (fatal isAttributeValue : Bool)
    (matched : List Nat) (digits semicolon : String) (cp : Nat)
    (hcp : 0xFFFF < cp) (hmax : cp ≤ 0x10FFFF)
    (hnum : t.decodeMapNumeric cp = none)
    (hfatal : fatal = true →
      (semicolon.data == []) = false ∧ cp ∉ t.invalidReferenceCodePoints) :
    ∃ hi lo, 0xD800 ≤ hi ∧ hi ≤ 0xDBFF ∧ 0xDC00 ≤ lo ∧ lo ≤ 0xDFFF ∧
      0x10000 + (hi - 0xD800) * 0x400 + (lo - 0xDC00) = cp ∧
      (readDigits 10 digits.data = some cp →
        decodeReplace t fatal isAttributeValue matched "" "" "" digits semicolon "" ""
          = .ok [hi, lo]) ∧
      (readDigits 16 digits.data = some cp →
        decodeReplace t fatal isAttributeValue matched "" "" "" "" "" digits semicolon
          = .ok [hi, lo]) := by
  have hemit := decodeCodePoint_astral t fatal cp hcp hmax hnum (fun hf => (hfatal hf).2)
  have hsemi : (fatal && semicolon.data == []) = false := by
    cases fatal with
    | false => rfl
    | true => simpa using (hfatal rfl).1
  have hempty : (("" : String).data != []) = false := rfl
  refine ⟨0xD800 + (cp - 0x10000) / 1024, 0xDC00 + (cp - 0x10000) % 1024,
    by omega, by omega, by omega, by omega, by omega, fun hd => ?_, fun hx => ?_⟩
  · obtain ⟨hp, hne⟩ := parseInt_of_readDigits digits 10 cp hd
    simp only [decodeReplace, hempty, hne, hsemi, hp, hemit, Bool.false_eq_true, if_false,
      if_true]
  · obtain ⟨hp, hne⟩ := parseInt_of_readDigits digits 16 cp hx
    simp only [decodeReplace, hempty, hne, hsemi, hp, hemit, Bool.false_eq_true, if_false,
      if_true]

/-- C16, witness: `&#x1F600;` (the code point `0x1F600`) gives the code units
`0xD83D, 0xDE00`, in fatal mode too. -/
theorem surrogate_pair_witness :
    readDigits 16 "1F600".data = some 0x1F600 ∧
    decodeReplace ⟨fun _ => none, fun _ => none, fun _ => none, []⟩ true false
      (codeUnits "&#x1F600;") "" "" "" "" "" "1F600" ";" = .ok [0xD83D, 0xDE00] ∧
    ∃ hi lo, 0xD800 ≤ hi ∧ hi ≤ 0xDBFF ∧ 0xDC00 ≤ lo ∧ lo ≤ 0xDFFF ∧
      0x10000 + (hi - 0xD800) * 0x400 + (lo - 0xDC00) = 0x1F600 ∧
      (readDigits 10 "1F600".data = some 0x1F600 →
        decodeReplace ⟨fun _ => none, fun _ => none, fun _ => none, []⟩ true false
          (codeUnits "&#x1F600;") "" "" "" "1F600" ";" "" "" = .ok [hi, lo]) ∧
      (readDigits 16 "1F600".data = some 0x1F600 →
        decodeReplace ⟨fun _ => none, fun _ => none, fun _ => none, []⟩ true false
          (codeUnits "&#x1F600;") "" "" "" "" "" "1F600" ";" = .ok [hi, lo]) :=
  ⟨by decide, rfl,
    surrogate_pair ⟨fun _ => none, fun _ => none, fun _ => none, []⟩ true false
      (codeUnits "&#x1F600;") "1F600" ";" 0x1F600 (by decide) (by decide) rfl
      (fun _ => ⟨by decide, by decide⟩)⟩

/-- C16, counterexample: in fatal mode the reference `&#x10000` without its
semicolon, whose code point `0x10000` is in the range, emits nothing: the
callback throws `MISSING_SEMICOLON`. -/
theorem unterminated_reference_rejected :
    readDigits 16 "10000".data = some 0x10000 ∧
    decodeReplace ⟨fun _ => none, fun _ => none, fun _ => none, []⟩ true false
      (codeUnits "&#x10000") "" "" "" "" "" "10000" ""
      = .error (.thinkError "MISSING_SEMICOLON") ∧
    decodeReplace ⟨fun _ => none, fun _ => none, fun _ => none, []⟩ false false
      (codeUnits "&#x10000") "" "" "" "" "" "10000" "" = .ok [0xD800, 0xDC00] :=
  ⟨by decide, rfl, rfl⟩

end Travex
